import Mathlib

/-!
# Verification of the boatwingio token/staking contract

Shallow embedding of `src/boatwingio.cpp` / `src/boatwingio.hpp` (an EOSIO
token contract with staking).  The five `eosio::multi_index` tables are
modelled as association lists keyed the way the contract keys them
(scope plus primary key, both 64-bit raw values, modelled as `Nat`):

* `stat`         : symbol code ↦ `currency_stats`
* `accounts`     : (owner scope, symbol-code key) ↦ `account`
* `stakestats`   : (symbol-code scope, owner key) ↦ `stake_stats`
* `totalstake`   : symbol code ↦ `stake_total`
* `unstakestats` : (symbol-code scope, owner key) ↦ `unstake_stats`

EOSIO actions are transactional: any failed `check`/assert aborts the whole
action with no state change.  Each action is therefore a pure function
`St → Except Err St`; an `.error` result means the state is unchanged.
`eosio::check` messages are mapped onto the spec's error taxonomy
(AuthError, ValidationError, NotFoundError, DuplicateError, InvariantError,
NotReadyError).  `int64_t` asset amounts are modelled as `Int`: every stored
amount is kept within ±(2^62−1) by the `eosio::asset` range checks, so no
64-bit overflow is reachable in the raw `amount` arithmetic the contract does
(sums of two in-range values stay below 2^63).

Host-environment collaborators (spec §6) are modelled at their interface:
`require_auth`/`has_auth` (authorization is checked by the host before any
table effect; all claims speak about authorized calls), `is_account` (passed
in as a predicate), `current_time_point().sec_since_epoch()` (passed in as a
`Nat`), `require_recipient` and `cancel_deferred` (no table effect).
`get_first_receiver()` equals the contract account for directly dispatched
actions, so the `totalstake` scope is a constant and the table is keyed by
symbol code alone, exactly as in the source.
-/

/-- Error taxonomy of spec §7; each embedded `check` carries the category its
message falls under. -/
inductive Err where
  | authError
  | validationError
  | notFoundError
  | duplicateError
  | invariantError
  | notReadyError
deriving DecidableEq, Repr

/-- `eosio::symbol`: 7-byte symbol code (raw `Nat`) plus decimal precision. -/
structure Symb where
  code : Nat
  prec : Nat
deriving DecidableEq, Repr

/-- `eosio::asset::max_amount = (1 << 62) - 1`. -/
def maxAmt : Int := 2 ^ 62 - 1

/-- Byte-wise validity scan of `symbol_code::is_valid()`: little-endian bytes,
each in `'A'..'Z'`; once the bytes run out (value 0) the remainder must be 0.
The fuel `7` bounds the code to 7 bytes as in the 64-bit raw layout. -/
def symCodeChars : Nat → Nat → Bool
  | 0, v => v = 0
  | n + 1, v =>
    if v = 0 then true
    else (decide (65 ≤ v % 256) && decide (v % 256 ≤ 90)) && symCodeChars n (v / 256)

/-- `symbol_code::is_valid()`: nonempty, at most 7 bytes, characters `A`-`Z`
with no embedded zero byte. -/
def codeValid (v : Nat) : Bool :=
  decide (v ≠ 0) && symCodeChars 7 v

/-- `eosio::asset`: signed 64-bit amount (as `Int`) with its symbol. -/
structure Asset where
  amount : Int
  sym : Symb
deriving DecidableEq, Repr

/-- `asset::is_valid()` = amount within ±`max_amount` and symbol code valid. -/
def assetValid (a : Asset) : Bool :=
  decide (-maxAmt ≤ a.amount) && decide (a.amount ≤ maxAmt) && codeValid a.sym.code

/-- `currency_stats` row of the `stat` table. -/
structure CurrencyStats where
  supply : Asset
  max_supply : Asset
  issuer : Nat
  refund_delay : Nat
  fee_rate : Nat
  fee_receiver : Nat
deriving DecidableEq, Repr

/-- `account` row of the `accounts` table. -/
structure AccountRec where
  balance : Asset
  staked_balance : Asset
deriving DecidableEq, Repr

/-- `stake_stats` row of the `stakestats` table. -/
structure StakeRec where
  owner : Nat
  staked_balance : Asset
deriving DecidableEq, Repr

/-- `stake_total` row of the `totalstake` table. -/
structure TotalRec where
  staked_balance_total : Asset
deriving DecidableEq, Repr

/-- `unstake_stats` row of the `unstakestats` table. -/
structure UnstakeRec where
  owner : Nat
  request_time : Nat
  refund_time : Nat
  amount : Asset
deriving DecidableEq, Repr

/-- Whole contract state: the five multi_index tables. -/
structure St where
  stats : List (Nat × CurrencyStats)
  accounts : List ((Nat × Nat) × AccountRec)
  stakes : List ((Nat × Nat) × StakeRec)
  totals : List (Nat × TotalRec)
  unstakes : List ((Nat × Nat) × UnstakeRec)
deriving DecidableEq, Repr

/-- The state before any action has run: all tables empty. -/
def emptySt : St := ⟨[], [], [], [], []⟩

section AListOps

variable {κ α : Type} [DecidableEq κ]

/-- `multi_index::find`: first row with the given key, if any. -/
def alookup : List (κ × α) → κ → Option α
  | [], _ => none
  | p :: ps, k => if p.1 = k then some p.2 else alookup ps k

/-- `multi_index::modify`/`emplace` as an upsert: replace the first row with the
key, or append a fresh row. -/
def aset : List (κ × α) → κ → α → List (κ × α)
  | [], k, v => [(k, v)]
  | p :: ps, k, v => if p.1 = k then (k, v) :: ps else p :: aset ps k v

/-- `multi_index::erase`: drop the first row with the key. -/
def aerase : List (κ × α) → κ → List (κ × α)
  | [], _ => []
  | p :: ps, k => if p.1 = k then ps else p :: aerase ps k

/-- Key uniqueness, which `multi_index` guarantees for primary keys. -/
def keysNodup (l : List (κ × α)) : Prop := (l.map Prod.fst).Nodup

theorem alookup_eq_none {l : List (κ × α)} {k : κ} :
    alookup l k = none ↔ k ∉ l.map Prod.fst := by
  induction l with
  | nil => simp [alookup]
  | cons p ps ih =>
    by_cases h : p.1 = k
    · simp [alookup, h]
    · simp only [alookup, if_neg h, ih, List.map_cons, List.mem_cons]
      constructor
      · intro hk hm
        rcases hm with hm | hm
        · exact h hm.symm
        · exact hk hm
      · intro hk
        exact fun hm => hk (Or.inr hm)

theorem alookup_mem {l : List (κ × α)} {k : κ} {v : α} (h : alookup l k = some v) :
    (k, v) ∈ l := by
  induction l with
  | nil => simp [alookup] at h
  | cons p ps ih =>
    by_cases hk : p.1 = k
    · simp only [alookup, if_pos hk, Option.some.injEq] at h
      have hpv : p = (k, v) := by
        rcases p with ⟨a, b⟩
        simp_all
      rw [← hpv]
      exact List.mem_cons_self p ps
    · simp only [alookup, if_neg hk] at h
      exact List.mem_cons_of_mem _ (ih h)

theorem mem_alookup {l : List (κ × α)} {k : κ} {v : α} (hnd : keysNodup l)
    (h : (k, v) ∈ l) : alookup l k = some v := by
  induction l with
  | nil => simp at h
  | cons p ps ih =>
    simp only [keysNodup, List.map_cons, List.nodup_cons] at hnd
    rcases List.mem_cons.mp h with h1 | h1
    · simp [alookup, ← h1]
    · have hk : p.1 ≠ k := by
        intro hk
        exact hnd.1 (hk ▸ (List.mem_map.mpr ⟨(k, v), h1, rfl⟩))
      simp only [alookup, if_neg hk]
      exact ih hnd.2 h1

theorem alookup_aset_self {l : List (κ × α)} {k : κ} {v : α} :
    alookup (aset l k v) k = some v := by
  induction l with
  | nil => simp [aset, alookup]
  | cons p ps ih =>
    by_cases h : p.1 = k <;> simp [aset, alookup, h, ih]

theorem alookup_aset_ne {l : List (κ × α)} {k k' : κ} {v : α} (h : k' ≠ k) :
    alookup (aset l k v) k' = alookup l k' := by
  have hkk : k ≠ k' := Ne.symm h
  induction l with
  | nil => simp [aset, alookup, if_neg hkk]
  | cons p ps ih =>
    by_cases hp : p.1 = k
    · have hp' : p.1 ≠ k' := by rw [hp]; exact hkk
      simp only [aset, if_pos hp, alookup, if_neg hkk, if_neg hp']
    · simp only [aset, if_neg hp, alookup]
      by_cases hp' : p.1 = k' <;> simp [hp', ih]

theorem alookup_aerase_ne {l : List (κ × α)} {k k' : κ} (h : k' ≠ k) :
    alookup (aerase l k) k' = alookup l k' := by
  induction l with
  | nil => simp [aerase]
  | cons p ps ih =>
    by_cases hp : p.1 = k
    · have hp' : p.1 ≠ k' := by rw [hp]; exact Ne.symm h
      simp only [aerase, if_pos hp, alookup, if_neg hp']
    · simp only [aerase, if_neg hp, alookup]
      by_cases hp' : p.1 = k' <;> simp [hp', ih]

theorem alookup_aerase_self {l : List (κ × α)} {k : κ} (hnd : keysNodup l) :
    alookup (aerase l k) k = none := by
  induction l with
  | nil => simp [aerase, alookup]
  | cons p ps ih =>
    simp only [keysNodup, List.map_cons, List.nodup_cons] at hnd
    by_cases hp : p.1 = k
    · simp only [aerase, if_pos hp]
      rw [alookup_eq_none]
      exact fun hm => hnd.1 (hp ▸ hm)
    · simp only [aerase, if_neg hp, alookup, if_neg hp]
      exact ih hnd.2

theorem aerase_of_none {l : List (κ × α)} {k : κ} (h : alookup l k = none) :
    aerase l k = l := by
  induction l with
  | nil => simp [aerase]
  | cons p ps ih =>
    by_cases hp : p.1 = k
    · simp [alookup, hp] at h
    · simp only [alookup, if_neg hp] at h
      simp [aerase, hp, ih h]

theorem aset_of_none {l : List (κ × α)} {k : κ} {v : α} (h : alookup l k = none) :
    aset l k v = l ++ [(k, v)] := by
  induction l with
  | nil => simp [aset]
  | cons p ps ih =>
    by_cases hp : p.1 = k
    · simp [alookup, hp] at h
    · simp only [alookup, if_neg hp] at h
      simp [aset, hp, ih h]

theorem map_fst_aset_of_some {l : List (κ × α)} {k : κ} {v0 v : α}
    (h : alookup l k = some v0) : (aset l k v).map Prod.fst = l.map Prod.fst := by
  induction l with
  | nil => simp [alookup] at h
  | cons p ps ih =>
    by_cases hp : p.1 = k
    · simp [aset, hp]
    · simp only [alookup, if_neg hp] at h
      simp [aset, hp, ih h]

theorem aerase_sublist (l : List (κ × α)) (k : κ) : (aerase l k).Sublist l := by
  induction l with
  | nil => simp [aerase]
  | cons p ps ih =>
    by_cases hp : p.1 = k
    · simp only [aerase, if_pos hp]
      exact List.sublist_cons_self p ps
    · simp only [aerase, if_neg hp]
      exact List.Sublist.cons₂ p ih

theorem keysNodup_aset {l : List (κ × α)} {k : κ} {v : α} (hnd : keysNodup l) :
    keysNodup (aset l k v) := by
  rcases h : alookup l k with _ | v0
  · rw [keysNodup, aset_of_none h, List.map_append]
    simp only [List.map_cons, List.map_nil]
    rw [List.nodup_append]
    refine ⟨hnd, List.nodup_singleton k, ?_⟩
    intro x hx hx'
    simp only [List.mem_singleton] at hx'
    exact (alookup_eq_none.mp h) (hx' ▸ hx)
  · rw [keysNodup, map_fst_aset_of_some h]
    exact hnd

theorem keysNodup_aerase {l : List (κ × α)} {k : κ} (hnd : keysNodup l) :
    keysNodup (aerase l k) :=
  ((aerase_sublist l k).map Prod.fst).nodup hnd

end AListOps

section WSum

variable {κ α : Type}

/-- Sum of a per-row integer weight over the table. -/
def wsum (f : κ × α → Int) (l : List (κ × α)) : Int := (l.map f).sum

theorem wsum_nonneg {f : κ × α → Int} {l : List (κ × α)}
    (h : ∀ p ∈ l, 0 ≤ f p) : 0 ≤ wsum f l := by
  induction l with
  | nil => simp [wsum]
  | cons p ps ih =>
    simp only [wsum, List.map_cons, List.sum_cons] at *
    have h1 := h p (List.mem_cons_self p ps)
    have h2 := ih fun q hq => h q (List.mem_cons_of_mem _ hq)
    exact add_nonneg h1 h2

theorem wsum_eq_zero {f : κ × α → Int} {l : List (κ × α)}
    (h : ∀ p ∈ l, f p = 0) : wsum f l = 0 := by
  induction l with
  | nil => simp [wsum]
  | cons p ps ih =>
    simp only [wsum, List.map_cons, List.sum_cons] at *
    rw [h p (List.mem_cons_self p ps), ih fun q hq => h q (List.mem_cons_of_mem _ hq)]
    ring

end WSum

section WSumKey

variable {κ α : Type} [DecidableEq κ]

theorem wsum_aset_of_none {f : κ × α → Int} {l : List (κ × α)} {k : κ} {v : α}
    (h : alookup l k = none) : wsum f (aset l k v) = wsum f l + f (k, v) := by
  induction l with
  | nil => simp [aset, wsum]
  | cons p ps ih =>
    by_cases hp : p.1 = k
    · simp [alookup, hp] at h
    · simp only [alookup, if_neg hp] at h
      simp only [aset, if_neg hp, wsum, List.map_cons, List.sum_cons] at *
      rw [ih h]
      ring

theorem wsum_aset_of_some {f : κ × α → Int} {l : List (κ × α)} {k : κ} {v0 v : α}
    (h : alookup l k = some v0) :
    wsum f (aset l k v) = wsum f l - f (k, v0) + f (k, v) := by
  induction l with
  | nil => simp [alookup] at h
  | cons p ps ih =>
    by_cases hp : p.1 = k
    · simp only [alookup, if_pos hp, Option.some.injEq] at h
      have hpp : p = (k, v0) := by
        rcases p with ⟨pk, pv⟩
        simp_all
      simp only [aset, if_pos hp, wsum, List.map_cons, List.sum_cons]
      rw [hpp]
      ring
    · simp only [alookup, if_neg hp] at h
      simp only [aset, if_neg hp, wsum, List.map_cons, List.sum_cons] at *
      rw [ih h]
      ring

theorem wsum_aerase_of_some {f : κ × α → Int} {l : List (κ × α)} {k : κ} {v0 : α}
    (h : alookup l k = some v0) : wsum f (aerase l k) = wsum f l - f (k, v0) := by
  induction l with
  | nil => simp [alookup] at h
  | cons p ps ih =>
    by_cases hp : p.1 = k
    · simp only [alookup, if_pos hp, Option.some.injEq] at h
      have hpp : p = (k, v0) := by
        rcases p with ⟨pk, pv⟩
        simp_all
      simp only [aerase, if_pos hp, wsum, List.map_cons, List.sum_cons]
      rw [hpp]
      ring
    · simp only [alookup, if_neg hp] at h
      simp only [aerase, if_neg hp, wsum, List.map_cons, List.sum_cons] at *
      rw [ih h]
      ring

theorem alookup_le_wsum {f : κ × α → Int} {l : List (κ × α)} {k : κ} {v : α}
    (h : alookup l k = some v) (hn : ∀ p ∈ l, 0 ≤ f p) : f (k, v) ≤ wsum f l := by
  induction l with
  | nil => simp [alookup] at h
  | cons p ps ih =>
    simp only [wsum, List.map_cons, List.sum_cons]
    by_cases hp : p.1 = k
    · simp only [alookup, if_pos hp, Option.some.injEq] at h
      have hpp : p = (k, v) := by
        rcases p with ⟨pk, pv⟩
        simp_all
      have h2 : (0 : Int) ≤ wsum f ps :=
        wsum_nonneg fun q hq => hn q (List.mem_cons_of_mem _ hq)
      rw [hpp]
      simp only [wsum] at h2
      omega
    · simp only [alookup, if_neg hp] at h
      have h1 := hn p (List.mem_cons_self p ps)
      have h2 := ih h fun q hq => hn q (List.mem_cons_of_mem _ hq)
      simp only [wsum] at h2
      omega

end WSumKey

/-- Sum of all spendable balances recorded for symbol code `c`. -/
def balSum (l : List ((Nat × Nat) × AccountRec)) (c : Nat) : Int :=
  wsum (fun p => if p.1.2 = c then p.2.balance.amount else 0) l

/-- Sum of all `stake_stats.staked_balance` rows in scope `c`. -/
def stkSum (l : List ((Nat × Nat) × StakeRec)) (c : Nat) : Int :=
  wsum (fun p => if p.1.1 = c then p.2.staked_balance.amount else 0) l

/-- Result monad of one action: `.error` aborts the whole action, leaving the
chain-level state unchanged (EOSIO transaction semantics). -/
abbrev M (α : Type) := Except Err α

/-- `eosio::check(cond, msg)`: continue on success, abort with the message's
error category otherwise. -/
def chk (c : Prop) [Decidable c] (e : Err) (k : M St) : M St :=
  if c then k else .error e

/-- `multi_index::get` / a `find`+`check` pair: require a row. -/
def mreq {α : Type} (o : Option α) (e : Err) (k : α → M St) : M St :=
  match o with
  | none => .error e
  | some a => k a

/-- Sequencing of a fallible intermediate computation. -/
def mlet {α β : Type} (m : M α) (k : α → M β) : M β :=
  match m with
  | .error e => .error e
  | .ok a => k a

/-- `eosio::asset::operator+=`: asserts equal symbols, then range-checks the
sum against ±`max_amount`. -/
def aadd (a b : Asset) : M Asset :=
  if a.sym = b.sym then
    if -maxAmt ≤ a.amount + b.amount ∧ a.amount + b.amount ≤ maxAmt then
      .ok ⟨a.amount + b.amount, a.sym⟩
    else .error .validationError
  else .error .validationError

/-- `eosio::asset::operator-=`: asserts equal symbols, then range-checks the
difference against ±`max_amount`. -/
def asub (a b : Asset) : M Asset :=
  if a.sym = b.sym then
    if -maxAmt ≤ a.amount - b.amount ∧ a.amount - b.amount ≤ maxAmt then
      .ok ⟨a.amount - b.amount, a.sym⟩
    else .error .validationError
  else .error .validationError

/-- `check(a >= b, msg)` on assets: `operator>=` asserts equal symbols
(aborting with a ValidationError-class message), then the `check` itself
aborts with `e` when the comparison is false. -/
def ageChk (a b : Asset) (e : Err) (k : M St) : M St :=
  if a.sym = b.sym then
    if b.amount ≤ a.amount then k else .error e
  else .error .validationError

namespace Token

/-- `token::add_balance(owner, value, ram_payer)` (boatwingio.cpp:296-311).
Creates the row with `balance = value`, `staked_balance = {0, value.symbol}`
when absent, else `balance += value`.  The ram payer has no accounting
effect. -/
def add_balance (owner : Nat) (value : Asset) (s : St) : M St :=
  match alookup s.accounts (owner, value.sym.code) with
  | none =>
      .ok { s with accounts := aset s.accounts (owner, value.sym.code) ⟨value, ⟨0, value.sym⟩⟩ }
  | some a =>
      mlet (aadd a.balance value) fun b =>
      .ok { s with accounts := aset s.accounts (owner, value.sym.code) { a with balance := b } }

/-- `token::sub_balance(owner, value)` (boatwingio.cpp:285-294).
`check(balance.amount >= value.amount + staked_balance.amount)` is raw
`int64_t` arithmetic (no symbol assert), then `balance -= value`. -/
def sub_balance (owner : Nat) (value : Asset) (s : St) : M St :=
  mreq (alookup s.accounts (owner, value.sym.code)) .notFoundError fun a =>
  chk (value.amount + a.staked_balance.amount ≤ a.balance.amount) .invariantError <|
  mlet (asub a.balance value) fun b =>
  .ok { s with accounts := aset s.accounts (owner, value.sym.code) { a with balance := b } }

/-- `token::create(issuer, maximum_supply)` (boatwingio.cpp:3-38).
`require_auth(get_self())` is host-checked.  Registers the `stat` row with
zero supply and default policy, and the zero `totalstake` row. -/
def create (issuer : Nat) (maximum_supply : Asset) (is_account : Nat → Bool)
    (s : St) : M St :=
  chk (is_account issuer = true) .notFoundError <|
  chk (codeValid maximum_supply.sym.code = true) .validationError <|
  chk (assetValid maximum_supply = true) .validationError <|
  chk (0 < maximum_supply.amount) .validationError <|
  chk (alookup s.stats maximum_supply.sym.code = none) .duplicateError <|
  chk (alookup s.totals maximum_supply.sym.code = none) .duplicateError <|
  .ok { s with
        stats := aset s.stats maximum_supply.sym.code ⟨⟨0, maximum_supply.sym⟩, maximum_supply, issuer, 0, 0, issuer⟩,
        totals := aset s.totals maximum_supply.sym.code ⟨⟨0, maximum_supply.sym⟩⟩ }

/-- `token::setdelay(symbol, delaytime)` (boatwingio.cpp:40-52).
Issuer-authorized (host).  Updates only `refund_delay`. -/
def setdelay (symbol : Symb) (delaytime : Nat) (s : St) : M St :=
  mreq (alookup s.stats symbol.code) .notFoundError fun st =>
  chk (st.supply.sym.code = symbol.code) .validationError <|
  .ok { s with stats := aset s.stats symbol.code { st with refund_delay := delaytime } }

/-- `token::settransfee(symbol, ratio, receiver)` (boatwingio.cpp:54-70).
Issuer-authorized (host).  The fee-percentage argument is `uint64_t`, so only
the upper bound 100 is a real constraint. -/
def settransfee (symbol : Symb) (rate : Nat) (receiver : Nat)
    (is_account : Nat → Bool) (s : St) : M St :=
  chk (is_account receiver = true) .notFoundError <|
  mreq (alookup s.stats symbol.code) .notFoundError fun st =>
  chk (st.supply.sym.code = symbol.code) .validationError <|
  chk (rate ≤ 100) .validationError <|
  .ok { s with stats := aset s.stats symbol.code { st with fee_rate := rate, fee_receiver := receiver } }

/-- `token::issue(to, quantity, memo)` (boatwingio.cpp:72-97).
Issuer-authorized (host).  Note: the credited account is `st.issuer`, not
`toA` — `add_balance(st.issuer, quantity, st.issuer)` on line 96; `toA` is
only required to be an existing account. -/
def issue (toA : Nat) (quantity : Asset) (memoLen : Nat) (is_account : Nat → Bool)
    (s : St) : M St :=
  chk (is_account toA = true) .notFoundError <|
  chk (codeValid quantity.sym.code = true) .validationError <|
  chk (memoLen ≤ 256) .validationError <|
  mreq (alookup s.stats quantity.sym.code) .notFoundError fun st =>
  chk (assetValid quantity = true) .validationError <|
  chk (0 < quantity.amount) .validationError <|
  chk (quantity.sym = st.supply.sym) .validationError <|
  chk (quantity.amount ≤ st.max_supply.amount - st.supply.amount) .invariantError <|
  mlet (aadd st.supply quantity) fun sup =>
  add_balance st.issuer quantity
    { s with stats := aset s.stats quantity.sym.code { st with supply := sup } }

/-- `token::retire(quantity, memo)` (boatwingio.cpp:99-121).
Issuer-authorized (host).  `supply -= quantity`, then debits the issuer. -/
def retire (quantity : Asset) (memoLen : Nat) (s : St) : M St :=
  chk (codeValid quantity.sym.code = true) .validationError <|
  chk (memoLen ≤ 256) .validationError <|
  mreq (alookup s.stats quantity.sym.code) .notFoundError fun st =>
  chk (assetValid quantity = true) .validationError <|
  chk (0 < quantity.amount) .validationError <|
  chk (quantity.sym = st.supply.sym) .validationError <|
  mlet (asub st.supply quantity) fun sup =>
  sub_balance st.issuer quantity
    { s with stats := aset s.stats quantity.sym.code { st with supply := sup } }

/-- `token::transfer(from, to, quantity, memo)` (boatwingio.cpp:123-147).
`from`-authorized (host); `require_recipient` and the ram-payer choice have
no table effect. -/
def transfer (sender receiver : Nat) (quantity : Asset) (memoLen : Nat)
    (is_account : Nat → Bool) (s : St) : M St :=
  chk (sender ≠ receiver) .validationError <|
  chk (is_account receiver = true) .notFoundError <|
  mreq (alookup s.stats quantity.sym.code) .notFoundError fun st =>
  chk (assetValid quantity = true) .validationError <|
  chk (0 < quantity.amount) .validationError <|
  chk (quantity.sym = st.supply.sym) .validationError <|
  chk (memoLen ≤ 256) .validationError <|
  mlet (sub_balance sender quantity s) fun s1 =>
  add_balance receiver quantity s1

/-- `token::stake(owner, quantity)` (boatwingio.cpp:149-188).
Owner-authorized (host).  Raises the account's `staked_balance`, upserts the
`stakestats` mirror row, and raises the `totalstake` aggregate. -/
def stake (owner : Nat) (quantity : Asset) (s : St) : M St :=
  chk (assetValid quantity = true) .validationError <|
  chk (0 < quantity.amount) .validationError <|
  mreq (alookup s.accounts (owner, quantity.sym.code)) .notFoundError fun a =>
  mlet (aadd a.staked_balance quantity) fun stk =>
  ageChk a.balance stk .invariantError <|
  let s1 : St := { s with accounts := aset s.accounts (owner, quantity.sym.code) { a with staked_balance := stk } }
  mlet
    (match alookup s1.stakes (quantity.sym.code, owner) with
     | none =>
         .ok { s1 with stakes := aset s1.stakes (quantity.sym.code, owner) ⟨owner, quantity⟩ }
     | some r =>
         mlet (aadd r.staked_balance quantity) fun v =>
         .ok { s1 with stakes := aset s1.stakes (quantity.sym.code, owner) { r with staked_balance := v } })
    fun s2 =>
  mreq (alookup s2.totals quantity.sym.code) .notFoundError fun t =>
  mlet (aadd t.staked_balance_total quantity) fun tot =>
  .ok { s2 with totals := aset s2.totals quantity.sym.code ⟨tot⟩ }

/-- `token::unstake(owner, quantity)` (boatwingio.cpp:190-218).
Owner-authorized (host).  Creates the single pending `unstake_stats` row with
`refund_time = (now + refund_delay) mod 2^64`: the addition on
boatwingio.cpp:215 is carried out in `uint64_t` and `setdelay`
(boatwingio.cpp:50) stores any `uint64_t` delay unchecked, so the sum wraps.
Moves no balance. -/
def unstake (owner : Nat) (quantity : Asset) (now : Nat) (s : St) : M St :=
  chk (assetValid quantity = true) .validationError <|
  chk (0 < quantity.amount) .validationError <|
  mreq (alookup s.stats quantity.sym.code) .notFoundError fun st =>
  mreq (alookup s.accounts (owner, quantity.sym.code)) .notFoundError fun a =>
  ageChk a.staked_balance quantity .invariantError <|
  chk (alookup s.unstakes (quantity.sym.code, owner) = none) .duplicateError <|
  .ok { s with unstakes := aset s.unstakes (quantity.sym.code, owner) ⟨owner, now, (now + st.refund_delay) % (2 ^ 64), quantity⟩ }

/-- `token::inline_refund(owner, rampayer, symbol)` (boatwingio.cpp:225-268).
Releases the staked hold: lowers `staked_balance`, the `stakestats` mirror and
the `totalstake` aggregate by the requested amount, then erases the request.
The spendable `balance` field itself is untouched. -/
def inline_refund (owner : Nat) (code : Nat) (now : Nat) (s : St) : M St :=
  mreq (alookup s.unstakes (code, owner)) .notFoundError fun r =>
  chk (r.owner = owner) .authError <|
  chk (r.refund_time ≤ now) .notReadyError <|
  mreq (alookup s.accounts (owner, code)) .notFoundError fun a =>
  ageChk a.balance r.amount .invariantError <|
  mlet (asub a.staked_balance r.amount) fun stk =>
  let s1 : St := { s with accounts := aset s.accounts (owner, code) { a with staked_balance := stk } }
  mreq (alookup s1.stakes (code, owner)) .notFoundError fun rec =>
  mlet (asub rec.staked_balance r.amount) fun v =>
  let s2 : St := { s1 with stakes := aset s1.stakes (code, owner) ⟨owner, v⟩ }
  mreq (alookup s2.totals code) .notFoundError fun t =>
  mlet (asub t.staked_balance_total r.amount) fun tot =>
  .ok { s2 with
        totals := aset s2.totals code ⟨tot⟩,
        unstakes := aerase s2.unstakes (code, owner) }

/-- `token::refund(owner, symbol)` (boatwingio.cpp:220-223): owner-authorized
(host), then `inline_refund` with `same_payer`. -/
def refund (owner : Nat) (code : Nat) (now : Nat) (s : St) : M St :=
  inline_refund owner code now s

/-- `token::cancelrefund(owner, symbol)` (boatwingio.cpp:270-283).
Owner-authorized (host); `cancel_deferred` is a host scheduling effect with
no table change.  Deletes the pending request, touching nothing else. -/
def cancelrefund (owner : Nat) (code : Nat) (s : St) : M St :=
  mreq (alookup s.unstakes (code, owner)) .notFoundError fun _ =>
  .ok { s with unstakes := aerase s.unstakes (code, owner) }

/-- `token::open(owner, symbol, ram_payer)` (boatwingio.cpp:313-342).
Payer-authorized (host).  Creates a zero account row and a zero `stakestats`
row when absent. -/
def open_account (owner : Nat) (symbol : Symb) (is_account : Nat → Bool)
    (s : St) : M St :=
  chk (is_account owner = true) .notFoundError <|
  mreq (alookup s.stats symbol.code) .notFoundError fun st =>
  chk (st.supply.sym = symbol) .validationError <|
  let s1 : St :=
    match alookup s.accounts (owner, symbol.code) with
    | none => { s with accounts := aset s.accounts (owner, symbol.code) ⟨⟨0, symbol⟩, ⟨0, symbol⟩⟩ }
    | some _ => s
  match alookup s1.stakes (symbol.code, owner) with
  | none => .ok { s1 with stakes := aset s1.stakes (symbol.code, owner) ⟨owner, ⟨0, symbol⟩⟩ }
  | some _ => .ok s1

/-- `token::close(owner, symbol)` (boatwingio.cpp:344-366).
Owner-authorized (host).  Requires both balance fields to be exactly zero,
erases the account row and then, if present, the `stakestats` row.  The
second zero check on line 362 re-reads the already-erased account iterator;
it is modelled as the value read before the erase (which the line-354 check
already forced to zero). -/
def close (owner : Nat) (symbol : Symb) (s : St) : M St :=
  mreq (alookup s.accounts (owner, symbol.code)) .notFoundError fun a =>
  chk (a.balance.amount = 0 ∧ a.staked_balance.amount = 0) .invariantError <|
  let s1 : St := { s with accounts := aerase s.accounts (owner, symbol.code) }
  match alookup s1.stakes (symbol.code, owner) with
  | none => .ok s1
  | some _ =>
      chk (a.staked_balance.amount = 0) .invariantError <|
      .ok { s1 with stakes := aerase s1.stakes (symbol.code, owner) }

/-- `token::get_supply(contract, sym_code)` (boatwingio.hpp:183-188):
`statstable.get(...)` aborts when the symbol is unregistered — modelled as
`none`. -/
def get_supply (code : Nat) (s : St) : Option Asset :=
  (alookup s.stats code).map (fun st => st.supply)

/-- `token::get_balance(contract, owner, sym_code)` (boatwingio.hpp:200-205):
`accountstable.get(...)` aborts when the row is missing — modelled as
`none`. -/
def get_balance (owner : Nat) (code : Nat) (s : St) : Option Asset :=
  (alookup s.accounts (owner, code)).map (fun a => a.balance)

end Token

/-- One dispatched action with its arguments and ambient host inputs
(`is_account` predicate, clock reading). -/
inductive Op where
  | create (issuer : Nat) (maximum_supply : Asset) (is_account : Nat → Bool)
  | setdelay (symbol : Symb) (delaytime : Nat)
  | settransfee (symbol : Symb) (rate : Nat) (receiver : Nat) (is_account : Nat → Bool)
  | issue (toA : Nat) (quantity : Asset) (memoLen : Nat) (is_account : Nat → Bool)
  | retire (quantity : Asset) (memoLen : Nat)
  | transfer (sender receiver : Nat) (quantity : Asset) (memoLen : Nat) (is_account : Nat → Bool)
  | stake (owner : Nat) (quantity : Asset)
  | unstake (owner : Nat) (quantity : Asset) (now : Nat)
  | refund (owner : Nat) (code : Nat) (now : Nat)
  | cancelrefund (owner : Nat) (code : Nat)
  | openA (owner : Nat) (symbol : Symb) (is_account : Nat → Bool)
  | closeA (owner : Nat) (symbol : Symb)

/-- Dispatcher: run one action on the state. -/
def applyOp : Op → St → M St
  | .create issuer maxs ia, s => Token.create issuer maxs ia s
  | .setdelay sym d, s => Token.setdelay sym d s
  | .settransfee sym rate recv ia, s => Token.settransfee sym rate recv ia s
  | .issue toA q m ia, s => Token.issue toA q m ia s
  | .retire q m, s => Token.retire q m s
  | .transfer sd rc q m ia, s => Token.transfer sd rc q m ia s
  | .stake o q, s => Token.stake o q s
  | .unstake o q now, s => Token.unstake o q now s
  | .refund o c now, s => Token.refund o c now s
  | .cancelrefund o c, s => Token.cancelrefund o c s
  | .openA o sym ia, s => Token.open_account o sym ia s
  | .closeA o sym, s => Token.close o sym s

/-- States reachable from the deployed (empty-tables) contract by any
sequence of successful actions.  A failed action changes nothing, so only
successful steps matter. -/
inductive Reachable : St → Prop where
  | init : Reachable emptySt
  | step {s s' : St} (o : Op) : Reachable s → applyOp o s = .ok s' → Reachable s'

theorem chk_ok_iff {c : Prop} [Decidable c] {e : Err} {k : M St} {s' : St} :
    chk c e k = .ok s' ↔ c ∧ k = .ok s' := by
  by_cases h : c <;> simp [chk, h]

theorem mreq_ok_iff {α : Type} {o : Option α} {e : Err} {k : α → M St} {s' : St} :
    mreq o e k = .ok s' ↔ ∃ a, o = some a ∧ k a = .ok s' := by
  cases o <;> simp [mreq]

theorem mlet_ok_iff {α β : Type} {m : M α} {k : α → M β} {b : β} :
    mlet m k = .ok b ↔ ∃ a, m = .ok a ∧ k a = .ok b := by
  cases m <;> simp [mlet]

theorem aadd_ok_iff {a b r : Asset} :
    aadd a b = .ok r ↔
      a.sym = b.sym ∧ (-maxAmt ≤ a.amount + b.amount ∧ a.amount + b.amount ≤ maxAmt) ∧
      r = ⟨a.amount + b.amount, a.sym⟩ := by
  by_cases h1 : a.sym = b.sym
  · by_cases h2 : -maxAmt ≤ a.amount + b.amount ∧ a.amount + b.amount ≤ maxAmt <;>
      simp [aadd, h1, h2, eq_comm]
  · simp [aadd, h1]

theorem asub_ok_iff {a b r : Asset} :
    asub a b = .ok r ↔
      a.sym = b.sym ∧ (-maxAmt ≤ a.amount - b.amount ∧ a.amount - b.amount ≤ maxAmt) ∧
      r = ⟨a.amount - b.amount, a.sym⟩ := by
  unfold asub
  by_cases h1 : a.sym = b.sym
  · rw [if_pos h1]
    by_cases h2 : -maxAmt ≤ a.amount - b.amount ∧ a.amount - b.amount ≤ maxAmt
    · rw [if_pos h2]
      constructor
      · intro h
        injection h with h
        exact ⟨h1, h2, h.symm⟩
      · rintro ⟨-, -, rfl⟩
        rfl
    · rw [if_neg h2]
      constructor
      · intro h
        exact Except.noConfusion h
      · rintro ⟨-, hh, -⟩
        exact absurd hh h2
  · rw [if_neg h1]
    constructor
    · intro h
      exact Except.noConfusion h
    · rintro ⟨hh, -⟩
      exact absurd hh h1

theorem ageChk_ok_iff {a b : Asset} {e : Err} {k : M St} {s' : St} :
    ageChk a b e k = .ok s' ↔ a.sym = b.sym ∧ b.amount ≤ a.amount ∧ k = .ok s' := by
  by_cases h1 : a.sym = b.sym
  · by_cases h2 : b.amount ≤ a.amount <;> simp [ageChk, h1, h2]
  · simp [ageChk, h1]

/-- The inductive invariant of the contract state, tying the five tables
together.  It contains every per-table well-formedness fact the verified
claims rest on: key uniqueness, symbol coherence, conservation of supply,
the staking bound, the `stakestats` mirror, the `totalstake` aggregate and
the pending-request bound. -/
structure StInv (s : St) : Prop where
  ndS : keysNodup s.stats
  ndA : keysNodup s.accounts
  ndK : keysNodup s.stakes
  ndT : keysNodup s.totals
  ndU : keysNodup s.unstakes
  statOk : ∀ c st, alookup s.stats c = some st →
    st.supply.sym.code = c ∧ st.max_supply.sym = st.supply.sym ∧
    codeValid st.supply.sym.code = true ∧
    0 < st.max_supply.amount ∧ st.max_supply.amount ≤ maxAmt ∧
    st.supply.amount = balSum s.accounts c
  acctOk : ∀ o c a, alookup s.accounts (o, c) = some a →
    (∃ st, alookup s.stats c = some st ∧ a.balance.sym = st.supply.sym) ∧
    a.staked_balance.sym = a.balance.sym ∧
    0 ≤ a.staked_balance.amount ∧ a.staked_balance.amount ≤ a.balance.amount ∧
    a.balance.amount ≤ maxAmt
  totEx : ∀ c st, alookup s.stats c = some st → ∃ t, alookup s.totals c = some t
  totOk : ∀ c t, alookup s.totals c = some t →
    (∃ st, alookup s.stats c = some st ∧ t.staked_balance_total.sym = st.supply.sym) ∧
    t.staked_balance_total.amount = stkSum s.stakes c ∧
    t.staked_balance_total.amount ≤ maxAmt
  stkOk : ∀ c o r, alookup s.stakes (c, o) = some r →
    r.owner = o ∧
    ∃ a, alookup s.accounts (o, c) = some a ∧ r.staked_balance = a.staked_balance
  stkNone : ∀ c o a, alookup s.stakes (c, o) = none →
    alookup s.accounts (o, c) = some a → a.staked_balance.amount = 0
  reqOk : ∀ c o r, alookup s.unstakes (c, o) = some r →
    r.owner = o ∧ 0 < r.amount.amount ∧
    ∃ a, alookup s.accounts (o, c) = some a ∧ r.amount.sym = a.staked_balance.sym ∧
      r.amount.amount ≤ a.staked_balance.amount

theorem inv_emptySt : StInv emptySt := by
  refine ⟨?_, ?_, ?_, ?_, ?_, ?_, ?_, ?_, ?_, ?_, ?_, ?_⟩ <;>
    simp [emptySt, keysNodup, alookup]

theorem inv_cancelrefund {s s' : St} {o c : Nat} (hI : StInv s)
    (h : Token.cancelrefund o c s = .ok s') : StInv s' := by
  simp only [Token.cancelrefund, mreq_ok_iff, Except.ok.injEq] at h
  obtain ⟨r, hr, hok⟩ := h
  subst hok
  refine ⟨hI.ndS, hI.ndA, hI.ndK, hI.ndT, keysNodup_aerase hI.ndU, hI.statOk,
    hI.acctOk, hI.totEx, hI.totOk, hI.stkOk, hI.stkNone, ?_⟩
  intro c' o' r' hr'
  try simp only at hr'
  by_cases hk : ((c' : Nat), (o' : Nat)) = (c, o)
  · rw [hk, alookup_aerase_self hI.ndU] at hr'
    exact Option.noConfusion hr'
  · rw [alookup_aerase_ne hk] at hr'
    exact hI.reqOk c' o' r' hr'

theorem inv_unstake {s s' : St} {o now : Nat} {q : Asset} (hI : StInv s)
    (h : Token.unstake o q now s = .ok s') : StInv s' := by
  simp only [Token.unstake, chk_ok_iff, mreq_ok_iff, ageChk_ok_iff,
    Except.ok.injEq] at h
  obtain ⟨hval, hpos, st, hst, a, ha, hsym, hle, hnone, hok⟩ := h
  subst hok
  refine ⟨hI.ndS, hI.ndA, hI.ndK, hI.ndT, keysNodup_aset hI.ndU, hI.statOk,
    hI.acctOk, hI.totEx, hI.totOk, hI.stkOk, hI.stkNone, ?_⟩
  intro c' o' r' hr'
  try simp only at hr'
  by_cases hk : ((c' : Nat), (o' : Nat)) = (q.sym.code, o)
  · rw [hk, alookup_aset_self] at hr'
    injection hr' with hr2
    subst hr2
    rw [Prod.mk.injEq] at hk
    obtain ⟨rfl, rfl⟩ := hk
    exact ⟨rfl, hpos, a, ha, hsym.symm, hle⟩
  · rw [alookup_aset_ne hk] at hr'
    exact hI.reqOk c' o' r' hr'

theorem stats_aset_sym (st1 : CurrencyStats) {l : List (Nat × CurrencyStats)}
    {c0 c : Nat} {st0 st : CurrencyStats} (hst0 : alookup l c0 = some st0)
    (hsym : st1.supply.sym = st0.supply.sym) (h : alookup l c = some st) :
    ∃ st', alookup (aset l c0 st1) c = some st' ∧ st'.supply.sym = st.supply.sym := by
  by_cases hc : c = c0
  · subst hc
    rw [hst0] at h
    injection h with h
    subst h
    exact ⟨st1, alookup_aset_self, hsym⟩
  · refine ⟨st, ?_, rfl⟩
    rw [alookup_aset_ne hc]
    exact h

theorem balSum_zero_of_unregistered {s : St} {c : Nat} (hI : StInv s)
    (hsn : alookup s.stats c = none) : balSum s.accounts c = 0 := by
  apply wsum_eq_zero
  intro p hp
  by_cases hpc : p.1.2 = c
  · exfalso
    have hl : alookup s.accounts p.1 = some p.2 :=
      mem_alookup hI.ndA (by simpa using hp)
    obtain ⟨⟨st2, hst2, -⟩, -⟩ := hI.acctOk p.1.1 p.1.2 p.2 hl
    rw [hpc, hsn] at hst2
    exact Option.noConfusion hst2
  · simp [hpc]

theorem stkSum_zero_of_unregistered {s : St} {c : Nat} (hI : StInv s)
    (hsn : alookup s.stats c = none) : stkSum s.stakes c = 0 := by
  apply wsum_eq_zero
  intro p hp
  by_cases hpc : p.1.1 = c
  · exfalso
    have hl : alookup s.stakes p.1 = some p.2 :=
      mem_alookup hI.ndK (by simpa using hp)
    obtain ⟨-, a, ha, -⟩ := hI.stkOk p.1.1 p.1.2 p.2 hl
    obtain ⟨⟨st2, hst2, -⟩, -⟩ := hI.acctOk p.1.2 p.1.1 a ha
    rw [hpc, hsn] at hst2
    exact Option.noConfusion hst2
  · simp [hpc]

theorem inv_setdelay {s s' : St} {symbol : Symb} {d : Nat} (hI : StInv s)
    (h : Token.setdelay symbol d s = .ok s') : StInv s' := by
  simp only [Token.setdelay, mreq_ok_iff, chk_ok_iff, Except.ok.injEq] at h
  obtain ⟨st, hst, hcode, hok⟩ := h
  subst hok
  refine ⟨keysNodup_aset hI.ndS, hI.ndA, hI.ndK, hI.ndT, hI.ndU, ?_, ?_, ?_, ?_,
    hI.stkOk, hI.stkNone, hI.reqOk⟩
  · intro c' st' hst'
    try simp only at hst'
    by_cases hc : c' = symbol.code
    · subst hc
      rw [alookup_aset_self] at hst'
      injection hst' with h2
      subst h2
      obtain ⟨g1, g2, g3, g4, g5, g6⟩ := hI.statOk symbol.code st hst
      exact ⟨g1, g2, g3, g4, g5, g6⟩
    · rw [alookup_aset_ne hc] at hst'
      exact hI.statOk _ _ hst'
  · intro o' c' a ha
    try simp only at ha
    obtain ⟨⟨st2, hst2, hbs⟩, h2, h3, h4, h5⟩ := hI.acctOk o' c' a ha
    obtain ⟨st'', hst'', hsym''⟩ := stats_aset_sym { st with refund_delay := d } hst rfl hst2
    exact ⟨⟨st'', hst'', hbs.trans hsym''.symm⟩, h2, h3, h4, h5⟩
  · intro c' st' hst'
    try simp only at hst'
    by_cases hc : c' = symbol.code
    · subst hc
      exact hI.totEx _ _ hst
    · rw [alookup_aset_ne hc] at hst'
      exact hI.totEx _ _ hst'
  · intro c' t ht
    try simp only at ht
    obtain ⟨⟨st2, hst2, hts⟩, h2, h3⟩ := hI.totOk c' t ht
    obtain ⟨st'', hst'', hsym''⟩ := stats_aset_sym { st with refund_delay := d } hst rfl hst2
    exact ⟨⟨st'', hst'', hts.trans hsym''.symm⟩, h2, h3⟩

theorem inv_settransfee {s s' : St} {symbol : Symb} {rate recv : Nat}
    {ia : Nat → Bool} (hI : StInv s)
    (h : Token.settransfee symbol rate recv ia s = .ok s') : StInv s' := by
  simp only [Token.settransfee, mreq_ok_iff, chk_ok_iff, Except.ok.injEq] at h
  obtain ⟨hia, st, hst, hcode, hrate, hok⟩ := h
  subst hok
  refine ⟨keysNodup_aset hI.ndS, hI.ndA, hI.ndK, hI.ndT, hI.ndU, ?_, ?_, ?_, ?_,
    hI.stkOk, hI.stkNone, hI.reqOk⟩
  · intro c' st' hst'
    try simp only at hst'
    by_cases hc : c' = symbol.code
    · subst hc
      rw [alookup_aset_self] at hst'
      injection hst' with h2
      subst h2
      obtain ⟨g1, g2, g3, g4, g5, g6⟩ := hI.statOk symbol.code st hst
      exact ⟨g1, g2, g3, g4, g5, g6⟩
    · rw [alookup_aset_ne hc] at hst'
      exact hI.statOk _ _ hst'
  · intro o' c' a ha
    try simp only at ha
    obtain ⟨⟨st2, hst2, hbs⟩, h2, h3, h4, h5⟩ := hI.acctOk o' c' a ha
    obtain ⟨st'', hst'', hsym''⟩ :=
      stats_aset_sym { st with fee_rate := rate, fee_receiver := recv } hst rfl hst2
    exact ⟨⟨st'', hst'', hbs.trans hsym''.symm⟩, h2, h3, h4, h5⟩
  · intro c' st' hst'
    try simp only at hst'
    by_cases hc : c' = symbol.code
    · subst hc
      exact hI.totEx _ _ hst
    · rw [alookup_aset_ne hc] at hst'
      exact hI.totEx _ _ hst'
  · intro c' t ht
    try simp only at ht
    obtain ⟨⟨st2, hst2, hts⟩, h2, h3⟩ := hI.totOk c' t ht
    obtain ⟨st'', hst'', hsym''⟩ :=
      stats_aset_sym { st with fee_rate := rate, fee_receiver := recv } hst rfl hst2
    exact ⟨⟨st'', hst'', hts.trans hsym''.symm⟩, h2, h3⟩

theorem inv_create {s s' : St} {issuer : Nat} {maxs : Asset} {ia : Nat → Bool}
    (hI : StInv s) (h : Token.create issuer maxs ia s = .ok s') : StInv s' := by
  simp only [Token.create, chk_ok_iff, Except.ok.injEq] at h
  obtain ⟨hia, hcv, hav, hpos, hsn, htn, hok⟩ := h
  subst hok
  have hmax : maxs.amount ≤ maxAmt := by
    simp only [assetValid, Bool.and_eq_true, decide_eq_true_eq] at hav
    exact hav.1.2
  refine ⟨keysNodup_aset hI.ndS, hI.ndA, hI.ndK, keysNodup_aset hI.ndT, hI.ndU,
    ?_, ?_, ?_, ?_, hI.stkOk, hI.stkNone, hI.reqOk⟩
  · intro c' st' hst'
    try simp only at hst'
    by_cases hc : c' = maxs.sym.code
    · subst hc
      rw [alookup_aset_self] at hst'
      injection hst' with h2
      subst h2
      exact ⟨rfl, rfl, hcv, hpos, hmax, (balSum_zero_of_unregistered hI hsn).symm⟩
    · rw [alookup_aset_ne hc] at hst'
      exact hI.statOk _ _ hst'
  · intro o' c' a ha
    try simp only at ha
    obtain ⟨⟨st2, hst2, hbs⟩, h2, h3, h4, h5⟩ := hI.acctOk o' c' a ha
    refine ⟨⟨st2, ?_, hbs⟩, h2, h3, h4, h5⟩
    by_cases hc : c' = maxs.sym.code
    · subst hc
      rw [hsn] at hst2
      exact Option.noConfusion hst2
    · rw [alookup_aset_ne hc]
      exact hst2
  · intro c' st' hst'
    try simp only at hst' ⊢
    by_cases hc : c' = maxs.sym.code
    · subst hc
      exact ⟨_, alookup_aset_self⟩
    · rw [alookup_aset_ne hc] at hst' ⊢
      exact hI.totEx _ _ hst'
  · intro c' t ht
    try simp only at ht ⊢
    by_cases hc : c' = maxs.sym.code
    · subst hc
      rw [alookup_aset_self] at ht
      injection ht with h2
      subst h2
      refine ⟨⟨_, alookup_aset_self, rfl⟩, ?_, ?_⟩
      · exact (stkSum_zero_of_unregistered hI hsn).symm
      · simp only [maxAmt]
        norm_num
    · rw [alookup_aset_ne hc] at ht
      obtain ⟨⟨st2, hst2, hts⟩, h2, h3⟩ := hI.totOk c' t ht
      refine ⟨⟨st2, ?_, hts⟩, h2, h3⟩
      rw [alookup_aset_ne hc]
      exact hst2

theorem add_balance_ok {o : Nat} {v : Asset} {s s' : St}
    (h : Token.add_balance o v s = .ok s') :
    s'.stats = s.stats ∧ s'.stakes = s.stakes ∧ s'.totals = s.totals ∧
    s'.unstakes = s.unstakes ∧
    ((alookup s.accounts (o, v.sym.code) = none ∧
        s'.accounts = aset s.accounts (o, v.sym.code) ⟨v, ⟨0, v.sym⟩⟩) ∨
      (∃ a, alookup s.accounts (o, v.sym.code) = some a ∧
        a.balance.sym = v.sym ∧
        -maxAmt ≤ a.balance.amount + v.amount ∧ a.balance.amount + v.amount ≤ maxAmt ∧
        s'.accounts = aset s.accounts (o, v.sym.code)
          { a with balance := ⟨a.balance.amount + v.amount, a.balance.sym⟩ })) := by
  unfold Token.add_balance at h
  rcases hA : alookup s.accounts (o, v.sym.code) with _ | a <;> rw [hA] at h
  · injection h with h
    subst h
    exact ⟨rfl, rfl, rfl, rfl, Or.inl ⟨rfl, rfl⟩⟩
  · simp only [mlet_ok_iff, aadd_ok_iff, Except.ok.injEq] at h
    obtain ⟨b, ⟨hsym, hrange, rfl⟩, hok⟩ := h
    subst hok
    exact ⟨rfl, rfl, rfl, rfl, Or.inr ⟨a, rfl, hsym, hrange.1, hrange.2, rfl⟩⟩

theorem sub_balance_ok {o : Nat} {v : Asset} {s s' : St}
    (h : Token.sub_balance o v s = .ok s') :
    ∃ a, alookup s.accounts (o, v.sym.code) = some a ∧
      v.amount + a.staked_balance.amount ≤ a.balance.amount ∧
      a.balance.sym = v.sym ∧
      -maxAmt ≤ a.balance.amount - v.amount ∧ a.balance.amount - v.amount ≤ maxAmt ∧
      s'.stats = s.stats ∧ s'.stakes = s.stakes ∧ s'.totals = s.totals ∧
      s'.unstakes = s.unstakes ∧
      s'.accounts = aset s.accounts (o, v.sym.code)
        { a with balance := ⟨a.balance.amount - v.amount, a.balance.sym⟩ } := by
  simp only [Token.sub_balance, mreq_ok_iff, chk_ok_iff, mlet_ok_iff, asub_ok_iff,
    Except.ok.injEq] at h
  obtain ⟨a, ha, hchk, b, ⟨hsym, hrange, rfl⟩, hok⟩ := h
  subst hok
  exact ⟨a, ha, hchk, hsym, hrange.1, hrange.2, rfl, rfl, rfl, rfl, rfl⟩

theorem inv_issue {s s' : St} {toA memoLen : Nat} {q : Asset} {ia : Nat → Bool}
    (hI : StInv s) (h : Token.issue toA q memoLen ia s = .ok s') : StInv s' := by
  simp only [Token.issue, chk_ok_iff, mreq_ok_iff, mlet_ok_iff, aadd_ok_iff] at h
  obtain ⟨hia, hcv, hmemo, st, hst, hav, hpos, hqsym, hcap, sup,
    ⟨hsupSym, hsupRange, rfl⟩, hAB⟩ := h
  obtain ⟨hst1, hstk1, htot1, huns1, hbranch⟩ := add_balance_ok hAB
  try simp only at hst1 hstk1 htot1 huns1 hbranch
  obtain ⟨hsc, hms, hcv2, hmp, hmb, hcons⟩ := hI.statOk _ _ hst
  have hqv : -maxAmt ≤ q.amount ∧ q.amount ≤ maxAmt := by
    simp only [assetValid, Bool.and_eq_true, decide_eq_true_eq] at hav
    exact ⟨hav.1.1, hav.1.2⟩
  rcases hbranch with ⟨hnone, hacc⟩ | ⟨a, ha, habsym, hlo, hhi, hacc⟩
  · -- the issuer had no account row yet: it is created with balance q
    have hbal : ∀ c', balSum s'.accounts c' =
        balSum s.accounts c' + (if q.sym.code = c' then q.amount else 0) := by
      intro c'
      rw [hacc]
      unfold balSum
      rw [wsum_aset_of_none hnone]
    refine ⟨?_, ?_, ?_, ?_, ?_, ?_, ?_, ?_, ?_, ?_, ?_, ?_⟩
    · rw [hst1]
      exact keysNodup_aset hI.ndS
    · rw [hacc]
      exact keysNodup_aset hI.ndA
    · rw [hstk1]
      exact hI.ndK
    · rw [htot1]
      exact hI.ndT
    · rw [huns1]
      exact hI.ndU
    · intro c' st' hst'
      rw [hst1] at hst'
      by_cases hc : c' = q.sym.code
      · subst hc
        rw [alookup_aset_self] at hst'
        injection hst' with he
        subst he
        refine ⟨hsc, hms, hcv2, hmp, hmb, ?_⟩
        rw [hbal q.sym.code]
        rw [show (if q.sym.code = q.sym.code then q.amount else 0) = q.amount from if_pos rfl]
        rw [← hcons]
      · rw [alookup_aset_ne hc] at hst'
        obtain ⟨g1, g2, g3, g4, g5, g6⟩ := hI.statOk _ _ hst'
        refine ⟨g1, g2, g3, g4, g5, ?_⟩
        rw [hbal c']
        rw [show (if q.sym.code = c' then q.amount else 0) = 0 from
          if_neg (fun hh => hc hh.symm)]
        rw [add_zero]
        exact g6
    · intro o' c' a' ha'
      rw [hacc] at ha'
      by_cases hk : ((o', c') : Nat × Nat) = (st.issuer, q.sym.code)
      · rw [hk, alookup_aset_self] at ha'
        injection ha' with he
        subst he
        rw [Prod.mk.injEq] at hk
        obtain ⟨rfl, rfl⟩ := hk
        exact ⟨⟨{ st with supply := ⟨st.supply.amount + q.amount, st.supply.sym⟩ },
          by rw [hst1]; exact alookup_aset_self, hqsym⟩, rfl, le_refl _,
          hpos.le, hqv.2⟩
      · rw [alookup_aset_ne hk] at ha'
        obtain ⟨⟨st2, hst2, hbs⟩, g2, g3, g4, g5⟩ := hI.acctOk o' c' a' ha'
        obtain ⟨st'', hst'', hsym''⟩ := stats_aset_sym
          { st with supply := ⟨st.supply.amount + q.amount, st.supply.sym⟩ } hst rfl hst2
        exact ⟨⟨st'', by rw [hst1]; exact hst'', hbs.trans hsym''.symm⟩, g2, g3, g4, g5⟩
    · intro c' st' hst'
      rw [hst1] at hst'
      rw [htot1]
      by_cases hc : c' = q.sym.code
      · subst hc
        exact hI.totEx _ _ hst
      · rw [alookup_aset_ne hc] at hst'
        exact hI.totEx _ _ hst'
    · intro c' t ht
      rw [htot1] at ht
      obtain ⟨⟨st2, hst2, hts⟩, g2, g3⟩ := hI.totOk c' t ht
      obtain ⟨st'', hst'', hsym''⟩ := stats_aset_sym
        { st with supply := ⟨st.supply.amount + q.amount, st.supply.sym⟩ } hst rfl hst2
      refine ⟨⟨st'', by rw [hst1]; exact hst'', hts.trans hsym''.symm⟩, ?_, g3⟩
      rw [hstk1]
      exact g2
    · intro c' o' r hr
      rw [hstk1] at hr
      obtain ⟨ho, a2, ha2, hmir⟩ := hI.stkOk c' o' r hr
      by_cases hk : ((o', c') : Nat × Nat) = (st.issuer, q.sym.code)
      · exfalso
        rw [hk, hnone] at ha2
        exact Option.noConfusion ha2
      · refine ⟨ho, a2, ?_, hmir⟩
        rw [hacc, alookup_aset_ne hk]
        exact ha2
    · intro c' o' a' hknone ha'
      rw [hstk1] at hknone
      rw [hacc] at ha'
      by_cases hk : ((o', c') : Nat × Nat) = (st.issuer, q.sym.code)
      · rw [hk, alookup_aset_self] at ha'
        injection ha' with he
        subst he
        rfl
      · rw [alookup_aset_ne hk] at ha'
        exact hI.stkNone c' o' a' hknone ha'
    · intro c' o' r hr
      rw [huns1] at hr
      obtain ⟨ho, hp2, a2, ha2, hs2, hl2⟩ := hI.reqOk c' o' r hr
      by_cases hk : ((o', c') : Nat × Nat) = (st.issuer, q.sym.code)
      · exfalso
        rw [hk, hnone] at ha2
        exact Option.noConfusion ha2
      · refine ⟨ho, hp2, a2, ?_, hs2, hl2⟩
        rw [hacc, alookup_aset_ne hk]
        exact ha2
  · -- the issuer already had an account row: its balance is raised by q
    obtain ⟨⟨st2, hst2, hbs0⟩, gsym, gnn, gle, gmax⟩ := hI.acctOk st.issuer q.sym.code a ha
    have hEq : st2 = st := by
      rw [hst] at hst2
      exact (Option.some.inj hst2).symm
    rw [hEq] at hbs0
    have hbal : ∀ c', balSum s'.accounts c' =
        balSum s.accounts c' + (if q.sym.code = c' then q.amount else 0) := by
      intro c'
      rw [hacc]
      unfold balSum
      rw [wsum_aset_of_some ha]
      by_cases hc : q.sym.code = c' <;> simp [hc] <;> ring
    refine ⟨?_, ?_, ?_, ?_, ?_, ?_, ?_, ?_, ?_, ?_, ?_, ?_⟩
    · rw [hst1]
      exact keysNodup_aset hI.ndS
    · rw [hacc]
      exact keysNodup_aset hI.ndA
    · rw [hstk1]
      exact hI.ndK
    · rw [htot1]
      exact hI.ndT
    · rw [huns1]
      exact hI.ndU
    · intro c' st' hst'
      rw [hst1] at hst'
      by_cases hc : c' = q.sym.code
      · subst hc
        rw [alookup_aset_self] at hst'
        injection hst' with he
        subst he
        refine ⟨hsc, hms, hcv2, hmp, hmb, ?_⟩
        rw [hbal q.sym.code]
        rw [show (if q.sym.code = q.sym.code then q.amount else 0) = q.amount from if_pos rfl]
        rw [← hcons]
      · rw [alookup_aset_ne hc] at hst'
        obtain ⟨g1, g2, g3, g4, g5, g6⟩ := hI.statOk _ _ hst'
        refine ⟨g1, g2, g3, g4, g5, ?_⟩
        rw [hbal c']
        rw [show (if q.sym.code = c' then q.amount else 0) = 0 from
          if_neg (fun hh => hc hh.symm)]
        rw [add_zero]
        exact g6
    · intro o' c' a' ha'
      rw [hacc] at ha'
      by_cases hk : ((o', c') : Nat × Nat) = (st.issuer, q.sym.code)
      · rw [hk, alookup_aset_self] at ha'
        injection ha' with he
        subst he
        rw [Prod.mk.injEq] at hk
        obtain ⟨rfl, rfl⟩ := hk
        refine ⟨⟨{ st with supply := ⟨st.supply.amount + q.amount, st.supply.sym⟩ },
          by rw [hst1]; exact alookup_aset_self, hbs0⟩, gsym, gnn, ?_, hhi⟩
        have hq0 : 0 < q.amount := hpos
        calc a.staked_balance.amount ≤ a.balance.amount := gle
          _ ≤ a.balance.amount + q.amount := by linarith
      · rw [alookup_aset_ne hk] at ha'
        obtain ⟨⟨st3, hst3, hbs3⟩, g2, g3, g4, g5⟩ := hI.acctOk o' c' a' ha'
        obtain ⟨st'', hst'', hsym''⟩ := stats_aset_sym
          { st with supply := ⟨st.supply.amount + q.amount, st.supply.sym⟩ } hst rfl hst3
        exact ⟨⟨st'', by rw [hst1]; exact hst'', hbs3.trans hsym''.symm⟩, g2, g3, g4, g5⟩
    · intro c' st' hst'
      rw [hst1] at hst'
      rw [htot1]
      by_cases hc : c' = q.sym.code
      · subst hc
        exact hI.totEx _ _ hst
      · rw [alookup_aset_ne hc] at hst'
        exact hI.totEx _ _ hst'
    · intro c' t ht
      rw [htot1] at ht
      obtain ⟨⟨st3, hst3, hts⟩, g2, g3⟩ := hI.totOk c' t ht
      obtain ⟨st'', hst'', hsym''⟩ := stats_aset_sym
        { st with supply := ⟨st.supply.amount + q.amount, st.supply.sym⟩ } hst rfl hst3
      refine ⟨⟨st'', by rw [hst1]; exact hst'', hts.trans hsym''.symm⟩, ?_, g3⟩
      rw [hstk1]
      exact g2
    · intro c' o' r hr
      rw [hstk1] at hr
      obtain ⟨ho, a2, ha2, hmir⟩ := hI.stkOk c' o' r hr
      by_cases hk : ((o', c') : Nat × Nat) = (st.issuer, q.sym.code)
      · rw [hk, ha] at ha2
        injection ha2 with he
        subst he
        refine ⟨ho, { a with balance := ⟨a.balance.amount + q.amount, a.balance.sym⟩ },
          ?_, hmir⟩
        rw [hacc, hk]
        exact alookup_aset_self
      · refine ⟨ho, a2, ?_, hmir⟩
        rw [hacc, alookup_aset_ne hk]
        exact ha2
    · intro c' o' a' hknone ha'
      rw [hstk1] at hknone
      rw [hacc] at ha'
      by_cases hk : ((o', c') : Nat × Nat) = (st.issuer, q.sym.code)
      · rw [hk, alookup_aset_self] at ha'
        injection ha' with he
        subst he
        have h0 : a.staked_balance.amount = 0 := by
          apply hI.stkNone c' o' a hknone
          rw [hk]
          exact ha
        exact h0
      · rw [alookup_aset_ne hk] at ha'
        exact hI.stkNone c' o' a' hknone ha'
    · intro c' o' r hr
      rw [huns1] at hr
      obtain ⟨ho, hp2, a2, ha2, hs2, hl2⟩ := hI.reqOk c' o' r hr
      by_cases hk : ((o', c') : Nat × Nat) = (st.issuer, q.sym.code)
      · rw [hk, ha] at ha2
        injection ha2 with he
        subst he
        refine ⟨ho, hp2, { a with balance := ⟨a.balance.amount + q.amount, a.balance.sym⟩ },
          ?_, hs2, hl2⟩
        rw [hacc, hk]
        exact alookup_aset_self
      · refine ⟨ho, hp2, a2, ?_, hs2, hl2⟩
        rw [hacc, alookup_aset_ne hk]
        exact ha2

theorem inv_retire {s s' : St} {q : Asset} {memoLen : Nat}
    (hI : StInv s) (h : Token.retire q memoLen s = .ok s') : StInv s' := by
  simp only [Token.retire, chk_ok_iff, mreq_ok_iff, mlet_ok_iff, asub_ok_iff] at h
  obtain ⟨hcv, hmemo, st, hst, hav, hpos, hqsym, sup,
    ⟨hsupSym, hsupRange, rfl⟩, hSB⟩ := h
  obtain ⟨a, ha, hchk, habsym, hlo, hhi, hst1, hstk1, htot1, huns1, hacc⟩ :=
    sub_balance_ok hSB
  try simp only at ha hst1 hstk1 htot1 huns1 hacc
  obtain ⟨hsc, hms, hcv2, hmp, hmb, hcons⟩ := hI.statOk _ _ hst
  obtain ⟨⟨st2, hst2, hbs0⟩, gsym, gnn, gle, gmax⟩ := hI.acctOk st.issuer q.sym.code a ha
  have hEq : st2 = st := by
    rw [hst] at hst2
    exact (Option.some.inj hst2).symm
  rw [hEq] at hbs0
  have hbal : ∀ c', balSum s'.accounts c' =
      balSum s.accounts c' - (if q.sym.code = c' then q.amount else 0) := by
    intro c'
    rw [hacc]
    unfold balSum
    rw [wsum_aset_of_some ha]
    by_cases hc : q.sym.code = c' <;> simp [hc] <;> ring
  refine ⟨?_, ?_, ?_, ?_, ?_, ?_, ?_, ?_, ?_, ?_, ?_, ?_⟩
  · rw [hst1]
    exact keysNodup_aset hI.ndS
  · rw [hacc]
    exact keysNodup_aset hI.ndA
  · rw [hstk1]
    exact hI.ndK
  · rw [htot1]
    exact hI.ndT
  · rw [huns1]
    exact hI.ndU
  · intro c' st' hst'
    rw [hst1] at hst'
    by_cases hc : c' = q.sym.code
    · subst hc
      rw [alookup_aset_self] at hst'
      injection hst' with he
      subst he
      refine ⟨hsc, hms, hcv2, hmp, hmb, ?_⟩
      rw [hbal q.sym.code]
      rw [show (if q.sym.code = q.sym.code then q.amount else 0) = q.amount from if_pos rfl]
      rw [← hcons]
    · rw [alookup_aset_ne hc] at hst'
      obtain ⟨g1, g2, g3, g4, g5, g6⟩ := hI.statOk _ _ hst'
      refine ⟨g1, g2, g3, g4, g5, ?_⟩
      rw [hbal c']
      rw [show (if q.sym.code = c' then q.amount else 0) = 0 from
        if_neg (fun hh => hc hh.symm)]
      rw [sub_zero]
      exact g6
  · intro o' c' a' ha'
    rw [hacc] at ha'
    by_cases hk : ((o', c') : Nat × Nat) = (st.issuer, q.sym.code)
    · rw [hk, alookup_aset_self] at ha'
      injection ha' with he
      subst he
      rw [Prod.mk.injEq] at hk
      obtain ⟨rfl, rfl⟩ := hk
      refine ⟨⟨{ st with supply := ⟨st.supply.amount - q.amount, st.supply.sym⟩ },
        by rw [hst1]; exact alookup_aset_self, hbs0⟩, gsym, gnn, ?_, ?_⟩
      · show a.staked_balance.amount ≤ a.balance.amount - q.amount
        linarith [hchk]
      · exact hhi
    · rw [alookup_aset_ne hk] at ha'
      obtain ⟨⟨st3, hst3, hbs3⟩, g2, g3, g4, g5⟩ := hI.acctOk o' c' a' ha'
      obtain ⟨st'', hst'', hsym''⟩ := stats_aset_sym
        { st with supply := ⟨st.supply.amount - q.amount, st.supply.sym⟩ } hst rfl hst3
      exact ⟨⟨st'', by rw [hst1]; exact hst'', hbs3.trans hsym''.symm⟩, g2, g3, g4, g5⟩
  · intro c' st' hst'
    rw [hst1] at hst'
    rw [htot1]
    by_cases hc : c' = q.sym.code
    · subst hc
      exact hI.totEx _ _ hst
    · rw [alookup_aset_ne hc] at hst'
      exact hI.totEx _ _ hst'
  · intro c' t ht
    rw [htot1] at ht
    obtain ⟨⟨st3, hst3, hts⟩, g2, g3⟩ := hI.totOk c' t ht
    obtain ⟨st'', hst'', hsym''⟩ := stats_aset_sym
      { st with supply := ⟨st.supply.amount - q.amount, st.supply.sym⟩ } hst rfl hst3
    refine ⟨⟨st'', by rw [hst1]; exact hst'', hts.trans hsym''.symm⟩, ?_, g3⟩
    rw [hstk1]
    exact g2
  · intro c' o' r hr
    rw [hstk1] at hr
    obtain ⟨ho, a2, ha2, hmir⟩ := hI.stkOk c' o' r hr
    by_cases hk : ((o', c') : Nat × Nat) = (st.issuer, q.sym.code)
    · rw [hk, ha] at ha2
      injection ha2 with he
      subst he
      refine ⟨ho, { a with balance := ⟨a.balance.amount - q.amount, a.balance.sym⟩ },
        ?_, hmir⟩
      rw [hacc, hk]
      exact alookup_aset_self
    · refine ⟨ho, a2, ?_, hmir⟩
      rw [hacc, alookup_aset_ne hk]
      exact ha2
  · intro c' o' a' hknone ha'
    rw [hstk1] at hknone
    rw [hacc] at ha'
    by_cases hk : ((o', c') : Nat × Nat) = (st.issuer, q.sym.code)
    · rw [hk, alookup_aset_self] at ha'
      injection ha' with he
      subst he
      have h0 : a.staked_balance.amount = 0 := by
        apply hI.stkNone c' o' a hknone
        rw [hk]
        exact ha
      exact h0
    · rw [alookup_aset_ne hk] at ha'
      exact hI.stkNone c' o' a' hknone ha'
  · intro c' o' r hr
    rw [huns1] at hr
    obtain ⟨ho, hp2, a2, ha2, hs2, hl2⟩ := hI.reqOk c' o' r hr
    by_cases hk : ((o', c') : Nat × Nat) = (st.issuer, q.sym.code)
    · rw [hk, ha] at ha2
      injection ha2 with he
      subst he
      refine ⟨ho, hp2, { a with balance := ⟨a.balance.amount - q.amount, a.balance.sym⟩ },
        ?_, hs2, hl2⟩
      rw [hacc, hk]
      exact alookup_aset_self
    · refine ⟨ho, hp2, a2, ?_, hs2, hl2⟩
      rw [hacc, alookup_aset_ne hk]
      exact ha2

theorem inv_transfer {s s' : St} {sender receiver memoLen : Nat} {q : Asset}
    {ia : Nat → Bool} (hI : StInv s)
    (h : Token.transfer sender receiver q memoLen ia s = .ok s') : StInv s' := by
  simp only [Token.transfer, chk_ok_iff, mreq_ok_iff, mlet_ok_iff] at h
  obtain ⟨hne, hia, st, hst, hav, hpos, hqsym, hmemo, s1, hSB, hAB⟩ := h
  obtain ⟨a, ha, hchk, habsym, hlo, hhi, hstS, hstkS, htotS, hunsS, haccS⟩ :=
    sub_balance_ok hSB
  obtain ⟨hstA, hstkA, htotA, hunsA, hbranch⟩ := add_balance_ok hAB
  have hS : s'.stats = s.stats := by rw [hstA, hstS]
  have hK : s'.stakes = s.stakes := by rw [hstkA, hstkS]
  have hT : s'.totals = s.totals := by rw [htotA, htotS]
  have hU : s'.unstakes = s.unstakes := by rw [hunsA, hunsS]
  have hkey : ((receiver, q.sym.code) : Nat × Nat) ≠ (sender, q.sym.code) := by
    intro hh
    rw [Prod.mk.injEq] at hh
    exact hne hh.1.symm
  have hks : ((sender, q.sym.code) : Nat × Nat) ≠ (receiver, q.sym.code) :=
    fun hh => hkey hh.symm
  have hrecv1 : alookup s1.accounts (receiver, q.sym.code) =
      alookup s.accounts (receiver, q.sym.code) := by
    rw [haccS, alookup_aset_ne hkey]
  have hqb : -maxAmt ≤ q.amount ∧ q.amount ≤ maxAmt := by
    simp only [assetValid, Bool.and_eq_true, decide_eq_true_eq] at hav
    exact ⟨hav.1.1, hav.1.2⟩
  obtain ⟨⟨stA2, hstA2, hbsA⟩, gsymA, gnnA, gleA, gmaxA⟩ :=
    hI.acctOk sender q.sym.code a ha
  rcases hbranch with ⟨hnone, hacc⟩ | ⟨b, hb, hbsym, hblo, hbhi, hacc⟩
  · -- receiver row absent: created with balance q
    rw [haccS] at hacc hnone
    have hnoneS : alookup s.accounts (receiver, q.sym.code) = none := by
      rw [← alookup_aset_ne hkey
        (l := s.accounts) (v := { a with balance := ⟨a.balance.amount - q.amount, a.balance.sym⟩ })]
      exact hnone
    have hbal : ∀ c', balSum s'.accounts c' = balSum s.accounts c' := by
      intro c'
      rw [hacc]
      unfold balSum
      rw [wsum_aset_of_none hnone, wsum_aset_of_some ha]
      by_cases hc : q.sym.code = c' <;> simp [hc] <;> ring
    refine ⟨?_, ?_, ?_, ?_, ?_, ?_, ?_, ?_, ?_, ?_, ?_, ?_⟩
    · rw [hS]
      exact hI.ndS
    · rw [hacc]
      exact keysNodup_aset (keysNodup_aset hI.ndA)
    · rw [hK]
      exact hI.ndK
    · rw [hT]
      exact hI.ndT
    · rw [hU]
      exact hI.ndU
    · intro c' st' hst'
      rw [hS] at hst'
      obtain ⟨g1, g2, g3, g4, g5, g6⟩ := hI.statOk _ _ hst'
      refine ⟨g1, g2, g3, g4, g5, ?_⟩
      rw [hbal c']
      exact g6
    · intro o' c' a' ha'
      rw [hS]
      rw [hacc] at ha'
      by_cases hk1 : ((o', c') : Nat × Nat) = (receiver, q.sym.code)
      · rw [hk1, alookup_aset_self] at ha'
        injection ha' with he
        subst he
        rw [Prod.mk.injEq] at hk1
        obtain ⟨rfl, rfl⟩ := hk1
        exact ⟨⟨st, hst, hqsym⟩, rfl, le_refl _, hpos.le, hqb.2⟩
      · rw [alookup_aset_ne hk1] at ha'
        by_cases hk2 : ((o', c') : Nat × Nat) = (sender, q.sym.code)
        · rw [hk2, alookup_aset_self] at ha'
          injection ha' with he
          subst he
          rw [Prod.mk.injEq] at hk2
          obtain ⟨rfl, rfl⟩ := hk2
          refine ⟨⟨stA2, hstA2, hbsA⟩, gsymA, gnnA, ?_, ?_⟩
          · show a.staked_balance.amount ≤ a.balance.amount - q.amount
            linarith [hchk]
          · exact hhi
        · rw [alookup_aset_ne hk2] at ha'
          exact hI.acctOk o' c' a' ha'
    · intro c' st' hst'
      rw [hS] at hst'
      rw [hT]
      exact hI.totEx _ _ hst'
    · intro c' t ht
      rw [hT] at ht
      obtain ⟨⟨st3, hst3, hts⟩, g2, g3⟩ := hI.totOk c' t ht
      refine ⟨⟨st3, by rw [hS]; exact hst3, hts⟩, ?_, g3⟩
      rw [hK]
      exact g2
    · intro c' o' r hr
      rw [hK] at hr
      obtain ⟨ho, a2, ha2, hmir⟩ := hI.stkOk c' o' r hr
      by_cases hk1 : ((o', c') : Nat × Nat) = (receiver, q.sym.code)
      · exfalso
        rw [hk1, hnoneS] at ha2
        exact Option.noConfusion ha2
      · by_cases hk2 : ((o', c') : Nat × Nat) = (sender, q.sym.code)
        · rw [hk2, ha] at ha2
          injection ha2 with he
          subst he
          refine ⟨ho, { a with balance := ⟨a.balance.amount - q.amount, a.balance.sym⟩ },
            ?_, hmir⟩
          rw [hacc, alookup_aset_ne hk1, hk2]
          exact alookup_aset_self
        · refine ⟨ho, a2, ?_, hmir⟩
          rw [hacc, alookup_aset_ne hk1, alookup_aset_ne hk2]
          exact ha2
    · intro c' o' a' hkn ha'
      rw [hK] at hkn
      rw [hacc] at ha'
      by_cases hk1 : ((o', c') : Nat × Nat) = (receiver, q.sym.code)
      · rw [hk1, alookup_aset_self] at ha'
        injection ha' with he
        subst he
        rfl
      · rw [alookup_aset_ne hk1] at ha'
        by_cases hk2 : ((o', c') : Nat × Nat) = (sender, q.sym.code)
        · rw [hk2, alookup_aset_self] at ha'
          injection ha' with he
          subst he
          have h0 : a.staked_balance.amount = 0 := by
            apply hI.stkNone c' o' a hkn
            rw [hk2]
            exact ha
          exact h0
        · rw [alookup_aset_ne hk2] at ha'
          exact hI.stkNone c' o' a' hkn ha'
    · intro c' o' r hr
      rw [hU] at hr
      obtain ⟨ho, hp2, a2, ha2, hs2, hl2⟩ := hI.reqOk c' o' r hr
      by_cases hk1 : ((o', c') : Nat × Nat) = (receiver, q.sym.code)
      · exfalso
        rw [hk1, hnoneS] at ha2
        exact Option.noConfusion ha2
      · by_cases hk2 : ((o', c') : Nat × Nat) = (sender, q.sym.code)
        · rw [hk2, ha] at ha2
          injection ha2 with he
          subst he
          refine ⟨ho, hp2,
            { a with balance := ⟨a.balance.amount - q.amount, a.balance.sym⟩ },
            ?_, hs2, hl2⟩
          rw [hacc, alookup_aset_ne hk1, hk2]
          exact alookup_aset_self
        · refine ⟨ho, hp2, a2, ?_, hs2, hl2⟩
          rw [hacc, alookup_aset_ne hk1, alookup_aset_ne hk2]
          exact ha2
  · -- receiver row present: its balance is raised by q
    rw [haccS] at hacc hb
    have hbold : alookup s.accounts (receiver, q.sym.code) = some b := by
      rw [← alookup_aset_ne hkey
        (l := s.accounts) (v := { a with balance := ⟨a.balance.amount - q.amount, a.balance.sym⟩ })]
      exact hb
    obtain ⟨⟨stB2, hstB2, hbsB⟩, gsymB, gnnB, gleB, gmaxB⟩ :=
      hI.acctOk receiver q.sym.code b hbold
    have hbal : ∀ c', balSum s'.accounts c' = balSum s.accounts c' := by
      intro c'
      rw [hacc]
      unfold balSum
      rw [wsum_aset_of_some hb, wsum_aset_of_some ha]
      by_cases hc : q.sym.code = c' <;> simp [hc] <;> ring
    refine ⟨?_, ?_, ?_, ?_, ?_, ?_, ?_, ?_, ?_, ?_, ?_, ?_⟩
    · rw [hS]
      exact hI.ndS
    · rw [hacc]
      exact keysNodup_aset (keysNodup_aset hI.ndA)
    · rw [hK]
      exact hI.ndK
    · rw [hT]
      exact hI.ndT
    · rw [hU]
      exact hI.ndU
    · intro c' st' hst'
      rw [hS] at hst'
      obtain ⟨g1, g2, g3, g4, g5, g6⟩ := hI.statOk _ _ hst'
      refine ⟨g1, g2, g3, g4, g5, ?_⟩
      rw [hbal c']
      exact g6
    · intro o' c' a' ha'
      rw [hS]
      rw [hacc] at ha'
      by_cases hk1 : ((o', c') : Nat × Nat) = (receiver, q.sym.code)
      · rw [hk1, alookup_aset_self] at ha'
        injection ha' with he
        subst he
        rw [Prod.mk.injEq] at hk1
        obtain ⟨rfl, rfl⟩ := hk1
        refine ⟨⟨stB2, hstB2, hbsB⟩, gsymB, gnnB, ?_, ?_⟩
        · show b.staked_balance.amount ≤ b.balance.amount + q.amount
          linarith [gleB, hpos]
        · exact hbhi
      · rw [alookup_aset_ne hk1] at ha'
        by_cases hk2 : ((o', c') : Nat × Nat) = (sender, q.sym.code)
        · rw [hk2, alookup_aset_self] at ha'
          injection ha' with he
          subst he
          rw [Prod.mk.injEq] at hk2
          obtain ⟨rfl, rfl⟩ := hk2
          refine ⟨⟨stA2, hstA2, hbsA⟩, gsymA, gnnA, ?_, ?_⟩
          · show a.staked_balance.amount ≤ a.balance.amount - q.amount
            linarith [hchk]
          · exact hhi
        · rw [alookup_aset_ne hk2] at ha'
          exact hI.acctOk o' c' a' ha'
    · intro c' st' hst'
      rw [hS] at hst'
      rw [hT]
      exact hI.totEx _ _ hst'
    · intro c' t ht
      rw [hT] at ht
      obtain ⟨⟨st3, hst3, hts⟩, g2, g3⟩ := hI.totOk c' t ht
      refine ⟨⟨st3, by rw [hS]; exact hst3, hts⟩, ?_, g3⟩
      rw [hK]
      exact g2
    · intro c' o' r hr
      rw [hK] at hr
      obtain ⟨ho, a2, ha2, hmir⟩ := hI.stkOk c' o' r hr
      by_cases hk1 : ((o', c') : Nat × Nat) = (receiver, q.sym.code)
      · rw [hk1, hbold] at ha2
        injection ha2 with he
        subst he
        refine ⟨ho, { b with balance := ⟨b.balance.amount + q.amount, b.balance.sym⟩ },
          ?_, hmir⟩
        rw [hacc, hk1]
        exact alookup_aset_self
      · by_cases hk2 : ((o', c') : Nat × Nat) = (sender, q.sym.code)
        · rw [hk2, ha] at ha2
          injection ha2 with he
          subst he
          refine ⟨ho, { a with balance := ⟨a.balance.amount - q.amount, a.balance.sym⟩ },
            ?_, hmir⟩
          rw [hacc, alookup_aset_ne hk1, hk2]
          exact alookup_aset_self
        · refine ⟨ho, a2, ?_, hmir⟩
          rw [hacc, alookup_aset_ne hk1, alookup_aset_ne hk2]
          exact ha2
    · intro c' o' a' hkn ha'
      rw [hK] at hkn
      rw [hacc] at ha'
      by_cases hk1 : ((o', c') : Nat × Nat) = (receiver, q.sym.code)
      · rw [hk1, alookup_aset_self] at ha'
        injection ha' with he
        subst he
        have h0 : b.staked_balance.amount = 0 := by
          apply hI.stkNone c' o' b hkn
          rw [hk1]
          exact hbold
        exact h0
      · rw [alookup_aset_ne hk1] at ha'
        by_cases hk2 : ((o', c') : Nat × Nat) = (sender, q.sym.code)
        · rw [hk2, alookup_aset_self] at ha'
          injection ha' with he
          subst he
          have h0 : a.staked_balance.amount = 0 := by
            apply hI.stkNone c' o' a hkn
            rw [hk2]
            exact ha
          exact h0
        · rw [alookup_aset_ne hk2] at ha'
          exact hI.stkNone c' o' a' hkn ha'
    · intro c' o' r hr
      rw [hU] at hr
      obtain ⟨ho, hp2, a2, ha2, hs2, hl2⟩ := hI.reqOk c' o' r hr
      by_cases hk1 : ((o', c') : Nat × Nat) = (receiver, q.sym.code)
      · rw [hk1, hbold] at ha2
        injection ha2 with he
        subst he
        refine ⟨ho, hp2,
          { b with balance := ⟨b.balance.amount + q.amount, b.balance.sym⟩ },
          ?_, hs2, hl2⟩
        rw [hacc, hk1]
        exact alookup_aset_self
      · by_cases hk2 : ((o', c') : Nat × Nat) = (sender, q.sym.code)
        · rw [hk2, ha] at ha2
          injection ha2 with he
          subst he
          refine ⟨ho, hp2,
            { a with balance := ⟨a.balance.amount - q.amount, a.balance.sym⟩ },
            ?_, hs2, hl2⟩
          rw [hacc, alookup_aset_ne hk1, hk2]
          exact alookup_aset_self
        · refine ⟨ho, hp2, a2, ?_, hs2, hl2⟩
          rw [hacc, alookup_aset_ne hk1, alookup_aset_ne hk2]
          exact ha2

theorem pair_ne_swap {a b c d : Nat} (h : ((a, b) : Nat × Nat) ≠ (c, d)) :
    ((b, a) : Nat × Nat) ≠ (d, c) := by
  intro hh
  rw [Prod.mk.injEq] at hh
  exact h (by rw [Prod.mk.injEq]; exact ⟨hh.2, hh.1⟩)

theorem stkSum_aset_none {l : List ((Nat × Nat) × StakeRec)} {c0 o : Nat}
    {rec : StakeRec} (h : alookup l (c0, o) = none) (c' : Nat) :
    stkSum (aset l (c0, o) rec) c' =
      stkSum l c' + (if c0 = c' then rec.staked_balance.amount else 0) := by
  unfold stkSum
  rw [wsum_aset_of_none h]

theorem stkSum_aset_some {l : List ((Nat × Nat) × StakeRec)} {c0 o : Nat}
    {r0 rec : StakeRec} (h : alookup l (c0, o) = some r0) (c' : Nat) :
    stkSum (aset l (c0, o) rec) c' =
      stkSum l c' - (if c0 = c' then r0.staked_balance.amount else 0) +
        (if c0 = c' then rec.staked_balance.amount else 0) := by
  unfold stkSum
  rw [wsum_aset_of_some h]

theorem stkSum_aerase_some {l : List ((Nat × Nat) × StakeRec)} {c0 o : Nat}
    {r0 : StakeRec} (h : alookup l (c0, o) = some r0) (c' : Nat) :
    stkSum (aerase l (c0, o)) c' =
      stkSum l c' - (if c0 = c' then r0.staked_balance.amount else 0) := by
  unfold stkSum
  rw [wsum_aerase_of_some h]

theorem balSum_aerase_some {l : List ((Nat × Nat) × AccountRec)} {o c0 : Nat}
    {a0 : AccountRec} (h : alookup l (o, c0) = some a0) (c' : Nat) :
    balSum (aerase l (o, c0)) c' =
      balSum l c' - (if c0 = c' then a0.balance.amount else 0) := by
  unfold balSum
  rw [wsum_aerase_of_some h]

theorem inv_stake {s s' : St} {owner : Nat} {q : Asset} (hI : StInv s)
    (h : Token.stake owner q s = .ok s') : StInv s' := by
  simp only [Token.stake, chk_ok_iff, mreq_ok_iff, mlet_ok_iff, aadd_ok_iff,
    ageChk_ok_iff] at h
  obtain ⟨hav, hpos, a, ha, stk, ⟨hssym, hsrange, rfl⟩, hbsym, hble, s2, hmatch, t, ht,
    tot, ⟨htsym, htrange, rfl⟩, hok⟩ := h
  try simp only at hmatch
  obtain ⟨⟨st2, hst2, hbs⟩, gsym, gnn, gle, gmax⟩ := hI.acctOk owner q.sym.code a ha
  -- per-code balances are unchanged by stake
  have hbalA : ∀ c', balSum (aset s.accounts (owner, q.sym.code)
      { a with staked_balance := ⟨a.staked_balance.amount + q.amount, a.staked_balance.sym⟩ }) c' =
      balSum s.accounts c' := by
    intro c'
    unfold balSum
    rw [wsum_aset_of_some ha]
    by_cases hc : q.sym.code = c' <;> simp [hc]
  rcases hs : alookup s.stakes (q.sym.code, owner) with _ | r <;> rw [hs] at hmatch
  · -- no stakestats row yet: created with the staked quantity
    simp only [Except.ok.injEq] at hmatch
    subst hmatch
    try simp only at ht
    simp only [Except.ok.injEq] at hok
    subst hok
    have hstk0 : a.staked_balance.amount = 0 := hI.stkNone _ _ a hs ha
    obtain ⟨⟨st3, hst3, hts⟩, hsum, hmaxT⟩ := hI.totOk q.sym.code t ht
    refine ⟨hI.ndS, keysNodup_aset hI.ndA, keysNodup_aset hI.ndK, keysNodup_aset hI.ndT,
      hI.ndU, ?_, ?_, ?_, ?_, ?_, ?_, ?_⟩
    · intro c' st' hst'
      try simp only at hst'
      obtain ⟨g1, g2, g3, g4, g5, g6⟩ := hI.statOk _ _ hst'
      refine ⟨g1, g2, g3, g4, g5, ?_⟩
      rw [hbalA c']
      exact g6
    · intro o' c' a' ha'
      try simp only at ha'
      by_cases hk : ((o', c') : Nat × Nat) = (owner, q.sym.code)
      · rw [hk, alookup_aset_self] at ha'
        injection ha' with he
        subst he
        rw [Prod.mk.injEq] at hk
        obtain ⟨rfl, rfl⟩ := hk
        refine ⟨⟨st2, hst2, hbs⟩, gsym, ?_, hble, gmax⟩
        have : 0 < q.amount := hpos
        show 0 ≤ a.staked_balance.amount + q.amount
        linarith
      · rw [alookup_aset_ne hk] at ha'
        exact hI.acctOk o' c' a' ha'
    · intro c' st' hst'
      try simp only at hst' ⊢
      obtain ⟨t0, ht0⟩ := hI.totEx c' st' hst'
      by_cases hc : c' = q.sym.code
      · subst hc
        exact ⟨_, alookup_aset_self⟩
      · rw [alookup_aset_ne hc]
        exact ⟨t0, ht0⟩
    · intro c' t' ht'
      try simp only at ht'
      by_cases hc : c' = q.sym.code
      · subst hc
        rw [alookup_aset_self] at ht'
        injection ht' with he
        subst he
        refine ⟨⟨st3, hst3, hts⟩, ?_, htrange.2⟩
        show t.staked_balance_total.amount + q.amount = _
        rw [stkSum_aset_none hs, ← hsum]
        simp
      · rw [alookup_aset_ne hc] at ht'
        obtain ⟨⟨st4, hst4, hts4⟩, g2, g3⟩ := hI.totOk c' t' ht'
        refine ⟨⟨st4, hst4, hts4⟩, ?_, g3⟩
        rw [g2, stkSum_aset_none hs]
        simp [Ne.symm hc]
    · intro c' o' r' hr'
      try simp only at hr'
      by_cases hk : ((c', o') : Nat × Nat) = (q.sym.code, owner)
      · rw [hk, alookup_aset_self] at hr'
        injection hr' with he
        subst he
        rw [Prod.mk.injEq] at hk
        obtain ⟨rfl, rfl⟩ := hk
        refine ⟨rfl, { a with staked_balance :=
          ⟨a.staked_balance.amount + q.amount, a.staked_balance.sym⟩ }, alookup_aset_self, ?_⟩
        show q = (⟨a.staked_balance.amount + q.amount, a.staked_balance.sym⟩ : Asset)
        rw [hstk0, zero_add, hssym]
      · rw [alookup_aset_ne hk] at hr'
        obtain ⟨ho, a2, ha2, hmir⟩ := hI.stkOk c' o' r' hr'
        refine ⟨ho, a2, ?_, hmir⟩
        have hk2 : ((o', c') : Nat × Nat) ≠ (owner, q.sym.code) := pair_ne_swap hk
        rw [alookup_aset_ne hk2]
        exact ha2
    · intro c' o' a' hkn ha'
      try simp only at hkn ha'
      by_cases hk : ((c', o') : Nat × Nat) = (q.sym.code, owner)
      · rw [hk, alookup_aset_self] at hkn
        exact Option.noConfusion hkn
      · rw [alookup_aset_ne hk] at hkn
        have hk2 : ((o', c') : Nat × Nat) ≠ (owner, q.sym.code) := pair_ne_swap hk
        rw [alookup_aset_ne hk2] at ha'
        exact hI.stkNone c' o' a' hkn ha'
    · intro c' o' r' hr'
      try simp only at hr'
      obtain ⟨ho, hp2, a2, ha2, hs2, hl2⟩ := hI.reqOk c' o' r' hr'
      by_cases hk : ((o', c') : Nat × Nat) = (owner, q.sym.code)
      · rw [hk, ha] at ha2
        injection ha2 with he
        subst he
        refine ⟨ho, hp2, { a with staked_balance :=
          ⟨a.staked_balance.amount + q.amount, a.staked_balance.sym⟩ }, ?_, hs2, ?_⟩
        · rw [hk]
          exact alookup_aset_self
        · show r'.amount.amount ≤ a.staked_balance.amount + q.amount
          have : 0 < q.amount := hpos
          linarith
      · refine ⟨ho, hp2, a2, ?_, hs2, hl2⟩
        rw [alookup_aset_ne hk]
        exact ha2
  · -- existing stakestats row: raised by the staked quantity
    simp only [mlet_ok_iff, aadd_ok_iff, Except.ok.injEq] at hmatch
    obtain ⟨v, ⟨hvsym, hvrange, rfl⟩, hmatch⟩ := hmatch
    subst hmatch
    try simp only at ht
    simp only [Except.ok.injEq] at hok
    subst hok
    obtain ⟨hro, a2, ha2, hmir⟩ := hI.stkOk q.sym.code owner r hs
    have ha2a : a = a2 := by
      rw [ha] at ha2
      exact Option.some.inj ha2
    subst ha2a
    obtain ⟨⟨st3, hst3, hts⟩, hsum, hmaxT⟩ := hI.totOk q.sym.code t ht
    refine ⟨hI.ndS, keysNodup_aset hI.ndA, keysNodup_aset hI.ndK, keysNodup_aset hI.ndT,
      hI.ndU, ?_, ?_, ?_, ?_, ?_, ?_, ?_⟩
    · intro c' st' hst'
      try simp only at hst'
      obtain ⟨g1, g2, g3, g4, g5, g6⟩ := hI.statOk _ _ hst'
      refine ⟨g1, g2, g3, g4, g5, ?_⟩
      rw [hbalA c']
      exact g6
    · intro o' c' a' ha'
      try simp only at ha'
      by_cases hk : ((o', c') : Nat × Nat) = (owner, q.sym.code)
      · rw [hk, alookup_aset_self] at ha'
        injection ha' with he
        subst he
        rw [Prod.mk.injEq] at hk
        obtain ⟨rfl, rfl⟩ := hk
        refine ⟨⟨st2, hst2, hbs⟩, gsym, ?_, hble, gmax⟩
        have : 0 < q.amount := hpos
        show 0 ≤ a.staked_balance.amount + q.amount
        linarith
      · rw [alookup_aset_ne hk] at ha'
        exact hI.acctOk o' c' a' ha'
    · intro c' st' hst'
      try simp only at hst' ⊢
      obtain ⟨t0, ht0⟩ := hI.totEx c' st' hst'
      by_cases hc : c' = q.sym.code
      · subst hc
        exact ⟨_, alookup_aset_self⟩
      · rw [alookup_aset_ne hc]
        exact ⟨t0, ht0⟩
    · intro c' t' ht'
      try simp only at ht'
      by_cases hc : c' = q.sym.code
      · subst hc
        rw [alookup_aset_self] at ht'
        injection ht' with he
        subst he
        refine ⟨⟨st3, hst3, hts⟩, ?_, htrange.2⟩
        show t.staked_balance_total.amount + q.amount = _
        rw [stkSum_aset_some hs, ← hsum]
        simp
        ring
      · rw [alookup_aset_ne hc] at ht'
        obtain ⟨⟨st4, hst4, hts4⟩, g2, g3⟩ := hI.totOk c' t' ht'
        refine ⟨⟨st4, hst4, hts4⟩, ?_, g3⟩
        rw [g2, stkSum_aset_some hs]
        simp [Ne.symm hc]
    · intro c' o' r' hr'
      try simp only at hr'
      by_cases hk : ((c', o') : Nat × Nat) = (q.sym.code, owner)
      · rw [hk, alookup_aset_self] at hr'
        injection hr' with he
        subst he
        rw [Prod.mk.injEq] at hk
        obtain ⟨rfl, rfl⟩ := hk
        refine ⟨hro, { a with staked_balance :=
          ⟨a.staked_balance.amount + q.amount, a.staked_balance.sym⟩ }, alookup_aset_self, ?_⟩
        show (⟨r.staked_balance.amount + q.amount, r.staked_balance.sym⟩ : Asset) = _
        rw [hmir]
      · rw [alookup_aset_ne hk] at hr'
        obtain ⟨ho, a3, ha3, hmir3⟩ := hI.stkOk c' o' r' hr'
        refine ⟨ho, a3, ?_, hmir3⟩
        have hk2 : ((o', c') : Nat × Nat) ≠ (owner, q.sym.code) := pair_ne_swap hk
        rw [alookup_aset_ne hk2]
        exact ha3
    · intro c' o' a' hkn ha'
      try simp only at hkn ha'
      by_cases hk : ((c', o') : Nat × Nat) = (q.sym.code, owner)
      · rw [hk, alookup_aset_self] at hkn
        exact Option.noConfusion hkn
      · rw [alookup_aset_ne hk] at hkn
        have hk2 : ((o', c') : Nat × Nat) ≠ (owner, q.sym.code) := pair_ne_swap hk
        rw [alookup_aset_ne hk2] at ha'
        exact hI.stkNone c' o' a' hkn ha'
    · intro c' o' r' hr'
      try simp only at hr'
      obtain ⟨ho, hp2, a3, ha3, hs3, hl3⟩ := hI.reqOk c' o' r' hr'
      by_cases hk : ((o', c') : Nat × Nat) = (owner, q.sym.code)
      · rw [hk, ha] at ha3
        injection ha3 with he
        subst he
        refine ⟨ho, hp2, { a with staked_balance :=
          ⟨a.staked_balance.amount + q.amount, a.staked_balance.sym⟩ }, ?_, hs3, ?_⟩
        · rw [hk]
          exact alookup_aset_self
        · show r'.amount.amount ≤ a.staked_balance.amount + q.amount
          have : 0 < q.amount := hpos
          linarith
      · refine ⟨ho, hp2, a3, ?_, hs3, hl3⟩
        rw [alookup_aset_ne hk]
        exact ha3

theorem inv_refund {s s' : St} {owner code now : Nat} (hI : StInv s)
    (h : Token.inline_refund owner code now s = .ok s') : StInv s' := by
  simp only [Token.inline_refund, mreq_ok_iff, chk_ok_iff, mlet_ok_iff, asub_ok_iff,
    ageChk_ok_iff, Except.ok.injEq] at h
  obtain ⟨r, hr, hrown, htime, a, ha, hgsym, hgle, stk, ⟨hstsym, hstrange, rfl⟩, rec,
    hrec, v, ⟨hvsym, hvrange, rfl⟩, t, ht, tot, ⟨htsym2, htrange, rfl⟩, hok⟩ := h
  try simp only at hrec ht hok
  subst hok
  obtain ⟨hro', hrpos, a2, ha2, hrsym, hrle⟩ := hI.reqOk code owner r hr
  have ha2a : a = a2 := by
    rw [ha] at ha2
    exact Option.some.inj ha2
  subst ha2a
  obtain ⟨⟨st2, hst2, hbs⟩, gsym, gnn, gle, gmax⟩ := hI.acctOk owner code a ha
  obtain ⟨hreco, a3, ha3, hmir⟩ := hI.stkOk code owner rec hrec
  have ha3a : a = a3 := by
    rw [ha] at ha3
    exact Option.some.inj ha3
  subst ha3a
  obtain ⟨⟨st3, hst3, hts⟩, hsum, hmaxT⟩ := hI.totOk code t ht
  have hbalA : ∀ c', balSum (aset s.accounts (owner, code)
      { a with staked_balance := ⟨a.staked_balance.amount - r.amount.amount, a.staked_balance.sym⟩ }) c' =
      balSum s.accounts c' := by
    intro c'
    unfold balSum
    rw [wsum_aset_of_some ha]
    by_cases hc : code = c' <;> simp [hc]
  refine ⟨hI.ndS, keysNodup_aset hI.ndA, keysNodup_aset hI.ndK, keysNodup_aset hI.ndT,
    keysNodup_aerase hI.ndU, ?_, ?_, ?_, ?_, ?_, ?_, ?_⟩
  · intro c' st' hst'
    try simp only at hst'
    obtain ⟨g1, g2, g3, g4, g5, g6⟩ := hI.statOk _ _ hst'
    refine ⟨g1, g2, g3, g4, g5, ?_⟩
    rw [hbalA c']
    exact g6
  · intro o' c' a' ha'
    try simp only at ha'
    by_cases hk : ((o', c') : Nat × Nat) = (owner, code)
    · rw [hk, alookup_aset_self] at ha'
      injection ha' with he
      subst he
      rw [Prod.mk.injEq] at hk
      obtain ⟨rfl, rfl⟩ := hk
      refine ⟨⟨st2, hst2, hbs⟩, gsym, ?_, ?_, gmax⟩
      · show 0 ≤ a.staked_balance.amount - r.amount.amount
        linarith [hrle]
      · show a.staked_balance.amount - r.amount.amount ≤ a.balance.amount
        linarith [gle, hrpos]
    · rw [alookup_aset_ne hk] at ha'
      exact hI.acctOk o' c' a' ha'
  · intro c' st' hst'
    try simp only at hst' ⊢
    obtain ⟨t0, ht0⟩ := hI.totEx c' st' hst'
    by_cases hc : c' = code
    · subst hc
      exact ⟨_, alookup_aset_self⟩
    · rw [alookup_aset_ne hc]
      exact ⟨t0, ht0⟩
  · intro c' t' ht'
    try simp only at ht'
    by_cases hc : c' = code
    · subst hc
      rw [alookup_aset_self] at ht'
      injection ht' with he
      subst he
      refine ⟨⟨st3, hst3, hts⟩, ?_, htrange.2⟩
      show t.staked_balance_total.amount - r.amount.amount = _
      rw [stkSum_aset_some hrec, ← hsum]
      simp
    · rw [alookup_aset_ne hc] at ht'
      obtain ⟨⟨st4, hst4, hts4⟩, g2, g3⟩ := hI.totOk c' t' ht'
      refine ⟨⟨st4, hst4, hts4⟩, ?_, g3⟩
      rw [g2, stkSum_aset_some hrec]
      simp [Ne.symm hc]
  · intro c' o' r' hr'
    try simp only at hr'
    by_cases hk : ((c', o') : Nat × Nat) = (code, owner)
    · rw [hk, alookup_aset_self] at hr'
      injection hr' with he
      subst he
      rw [Prod.mk.injEq] at hk
      obtain ⟨rfl, rfl⟩ := hk
      refine ⟨rfl, { a with staked_balance :=
        ⟨a.staked_balance.amount - r.amount.amount, a.staked_balance.sym⟩ },
        alookup_aset_self, ?_⟩
      show (⟨rec.staked_balance.amount - r.amount.amount, rec.staked_balance.sym⟩ : Asset) = _
      rw [hmir]
    · rw [alookup_aset_ne hk] at hr'
      obtain ⟨ho, a4, ha4, hmir4⟩ := hI.stkOk c' o' r' hr'
      refine ⟨ho, a4, ?_, hmir4⟩
      have hk2 : ((o', c') : Nat × Nat) ≠ (owner, code) := pair_ne_swap hk
      rw [alookup_aset_ne hk2]
      exact ha4
  · intro c' o' a' hkn ha'
    try simp only at hkn ha'
    by_cases hk : ((c', o') : Nat × Nat) = (code, owner)
    · rw [hk, alookup_aset_self] at hkn
      exact Option.noConfusion hkn
    · rw [alookup_aset_ne hk] at hkn
      have hk2 : ((o', c') : Nat × Nat) ≠ (owner, code) := pair_ne_swap hk
      rw [alookup_aset_ne hk2] at ha'
      exact hI.stkNone c' o' a' hkn ha'
  · intro c' o' r' hr'
    try simp only at hr'
    by_cases hk : ((c', o') : Nat × Nat) = (code, owner)
    · rw [hk, alookup_aerase_self hI.ndU] at hr'
      exact Option.noConfusion hr'
    · rw [alookup_aerase_ne hk] at hr'
      obtain ⟨ho, hp2, a4, ha4, hs4, hl4⟩ := hI.reqOk c' o' r' hr'
      by_cases hk2 : ((o', c') : Nat × Nat) = (owner, code)
      · exfalso
        apply hk
        rw [Prod.mk.injEq] at hk2 ⊢
        exact ⟨hk2.2, hk2.1⟩
      · refine ⟨ho, hp2, a4, ?_, hs4, hl4⟩
        rw [alookup_aset_ne hk2]
        exact ha4

theorem inv_open {s s' : St} {owner : Nat} {symbol : Symb} {ia : Nat → Bool}
    (hI : StInv s) (h : Token.open_account owner symbol ia s = .ok s') : StInv s' := by
  simp only [Token.open_account, chk_ok_iff, mreq_ok_iff] at h
  obtain ⟨hia, st, hst, hsym, hrest⟩ := h
  rcases hA : alookup s.accounts (owner, symbol.code) with _ | a <;>
    rw [hA] at hrest <;> try simp only at hrest
  · rcases hK : alookup s.stakes (symbol.code, owner) with _ | r <;>
      rw [hK] at hrest <;> try simp only at hrest
    · -- fresh account row and fresh stakestats row, both zero
      simp only [Except.ok.injEq] at hrest
      subst hrest
      have hmaxnn : (0 : Int) ≤ maxAmt := by
        simp only [maxAmt]
        norm_num
      refine ⟨hI.ndS, keysNodup_aset hI.ndA, keysNodup_aset hI.ndK, hI.ndT, hI.ndU,
        ?_, ?_, ?_, ?_, ?_, ?_, ?_⟩
      · intro c' st' hst'
        try simp only at hst'
        obtain ⟨g1, g2, g3, g4, g5, g6⟩ := hI.statOk _ _ hst'
        refine ⟨g1, g2, g3, g4, g5, ?_⟩
        rw [g6]
        unfold balSum
        rw [wsum_aset_of_none hA]
        simp
      · intro o' c' a' ha'
        try simp only at ha'
        by_cases hk : ((o', c') : Nat × Nat) = (owner, symbol.code)
        · rw [hk, alookup_aset_self] at ha'
          injection ha' with he
          subst he
          rw [Prod.mk.injEq] at hk
          obtain ⟨rfl, rfl⟩ := hk
          exact ⟨⟨st, hst, hsym.symm⟩, rfl, le_refl _, le_refl _, hmaxnn⟩
        · rw [alookup_aset_ne hk] at ha'
          exact hI.acctOk o' c' a' ha'
      · intro c' st' hst'
        exact hI.totEx c' st' hst'
      · intro c' t' ht'
        obtain ⟨⟨st4, hst4, hts4⟩, g2, g3⟩ := hI.totOk c' t' ht'
        refine ⟨⟨st4, hst4, hts4⟩, ?_, g3⟩
        rw [g2, stkSum_aset_none hK]
        simp
      · intro c' o' r' hr'
        try simp only at hr'
        by_cases hk : ((c', o') : Nat × Nat) = (symbol.code, owner)
        · rw [hk, alookup_aset_self] at hr'
          injection hr' with he
          subst he
          rw [Prod.mk.injEq] at hk
          obtain ⟨rfl, rfl⟩ := hk
          exact ⟨rfl, ⟨⟨0, symbol⟩, ⟨0, symbol⟩⟩, alookup_aset_self, rfl⟩
        · rw [alookup_aset_ne hk] at hr'
          obtain ⟨ho, a4, ha4, hmir4⟩ := hI.stkOk c' o' r' hr'
          refine ⟨ho, a4, ?_, hmir4⟩
          have hk2 : ((o', c') : Nat × Nat) ≠ (owner, symbol.code) := pair_ne_swap hk
          rw [alookup_aset_ne hk2]
          exact ha4
      · intro c' o' a' hkn ha'
        try simp only at hkn ha'
        by_cases hk : ((c', o') : Nat × Nat) = (symbol.code, owner)
        · rw [hk, alookup_aset_self] at hkn
          exact Option.noConfusion hkn
        · rw [alookup_aset_ne hk] at hkn
          have hk2 : ((o', c') : Nat × Nat) ≠ (owner, symbol.code) := pair_ne_swap hk
          rw [alookup_aset_ne hk2] at ha'
          exact hI.stkNone c' o' a' hkn ha'
      · intro c' o' r' hr'
        try simp only at hr'
        obtain ⟨ho, hp2, a4, ha4, hs4, hl4⟩ := hI.reqOk c' o' r' hr'
        by_cases hk : ((o', c') : Nat × Nat) = (owner, symbol.code)
        · exfalso
          rw [hk, hA] at ha4
          exact Option.noConfusion ha4
        · refine ⟨ho, hp2, a4, ?_, hs4, hl4⟩
          rw [alookup_aset_ne hk]
          exact ha4
    · -- impossible: a stakestats row cannot exist without the account row
      exfalso
      obtain ⟨-, a4, ha4, -⟩ := hI.stkOk symbol.code owner r hK
      rw [hA] at ha4
      exact Option.noConfusion ha4
  · rcases hK : alookup s.stakes (symbol.code, owner) with _ | r <;>
      rw [hK] at hrest <;> try simp only at hrest
    · -- account exists, fresh zero stakestats row
      simp only [Except.ok.injEq] at hrest
      subst hrest
      have hzero : a.staked_balance.amount = 0 := hI.stkNone _ _ a hK hA
      obtain ⟨⟨st2, hst2, hbs⟩, gsym, gnn, gle, gmax⟩ := hI.acctOk owner symbol.code a hA
      have hstEq : st2 = st := by
        rw [hst] at hst2
        exact (Option.some.inj hst2).symm
      rw [hstEq] at hbs
      have hsym2 : a.staked_balance.sym = symbol := by
        rw [gsym, hbs, hsym]
      refine ⟨hI.ndS, hI.ndA, keysNodup_aset hI.ndK, hI.ndT, hI.ndU,
        hI.statOk, hI.acctOk, hI.totEx, ?_, ?_, ?_, hI.reqOk⟩
      · intro c' t' ht'
        obtain ⟨⟨st4, hst4, hts4⟩, g2, g3⟩ := hI.totOk c' t' ht'
        refine ⟨⟨st4, hst4, hts4⟩, ?_, g3⟩
        rw [g2, stkSum_aset_none hK]
        simp
      · intro c' o' r' hr'
        try simp only at hr'
        by_cases hk : ((c', o') : Nat × Nat) = (symbol.code, owner)
        · rw [hk, alookup_aset_self] at hr'
          injection hr' with he
          subst he
          rw [Prod.mk.injEq] at hk
          obtain ⟨rfl, rfl⟩ := hk
          refine ⟨rfl, a, hA, ?_⟩
          show (⟨0, symbol⟩ : Asset) = a.staked_balance
          rw [← hsym2, ← hzero]
        · rw [alookup_aset_ne hk] at hr'
          exact hI.stkOk c' o' r' hr'
      · intro c' o' a' hkn ha'
        try simp only at hkn
        by_cases hk : ((c', o') : Nat × Nat) = (symbol.code, owner)
        · rw [hk, alookup_aset_self] at hkn
          exact Option.noConfusion hkn
        · rw [alookup_aset_ne hk] at hkn
          exact hI.stkNone c' o' a' hkn ha'
    · -- both rows already exist: the action changes nothing
      simp only [Except.ok.injEq] at hrest
      subst hrest
      exact hI

theorem inv_close {s s' : St} {owner : Nat} {symbol : Symb}
    (hI : StInv s) (h : Token.close owner symbol s = .ok s') : StInv s' := by
  simp only [Token.close, mreq_ok_iff, chk_ok_iff] at h
  obtain ⟨a, hA, ⟨hb0, hs0⟩, hrest⟩ := h
  have hreq : ∀ r, alookup s.unstakes (symbol.code, owner) = some r → False := by
    intro r hr
    obtain ⟨-, hp2, a4, ha4, -, hl4⟩ := hI.reqOk symbol.code owner r hr
    rw [hA] at ha4
    obtain rfl : a = a4 := Option.some.inj ha4
    omega
  rcases hK : alookup s.stakes (symbol.code, owner) with _ | r <;>
    rw [hK] at hrest <;> try simp only at hrest
  · -- no stakestats row: only the account row is erased
    simp only [Except.ok.injEq] at hrest
    subst hrest
    refine ⟨hI.ndS, keysNodup_aerase hI.ndA, hI.ndK, hI.ndT, hI.ndU,
      ?_, ?_, hI.totEx, hI.totOk, ?_, ?_, ?_⟩
    · intro c' st' hst'
      try simp only at hst'
      obtain ⟨g1, g2, g3, g4, g5, g6⟩ := hI.statOk _ _ hst'
      refine ⟨g1, g2, g3, g4, g5, ?_⟩
      rw [balSum_aerase_some hA]
      simp [g6, hb0]
    · intro o' c' a' ha'
      try simp only at ha'
      by_cases hk : ((o', c') : Nat × Nat) = (owner, symbol.code)
      · rw [hk, alookup_aerase_self hI.ndA] at ha'
        exact Option.noConfusion ha'
      · rw [alookup_aerase_ne hk] at ha'
        exact hI.acctOk o' c' a' ha'
    · intro c' o' r' hr'
      obtain ⟨ho, a4, ha4, hmir4⟩ := hI.stkOk c' o' r' hr'
      by_cases hk : ((o', c') : Nat × Nat) = (owner, symbol.code)
      · exfalso
        have hk2 : ((c', o') : Nat × Nat) = (symbol.code, owner) := by
          rw [Prod.mk.injEq] at hk ⊢
          exact ⟨hk.2, hk.1⟩
        rw [hk2, hK] at hr'
        exact Option.noConfusion hr'
      · refine ⟨ho, a4, ?_, hmir4⟩
        rw [alookup_aerase_ne hk]
        exact ha4
    · intro c' o' a' hkn ha'
      try simp only at ha'
      by_cases hk : ((o', c') : Nat × Nat) = (owner, symbol.code)
      · rw [hk, alookup_aerase_self hI.ndA] at ha'
        exact Option.noConfusion ha'
      · rw [alookup_aerase_ne hk] at ha'
        exact hI.stkNone c' o' a' hkn ha'
    · intro c' o' r' hr'
      obtain ⟨ho, hp2, a4, ha4, hs4, hl4⟩ := hI.reqOk c' o' r' hr'
      by_cases hk : ((o', c') : Nat × Nat) = (owner, symbol.code)
      · exfalso
        have hk2 : ((c', o') : Nat × Nat) = (symbol.code, owner) := by
          rw [Prod.mk.injEq] at hk ⊢
          exact ⟨hk.2, hk.1⟩
        exact hreq r' (hk2 ▸ hr')
      · refine ⟨ho, hp2, a4, ?_, hs4, hl4⟩
        rw [alookup_aerase_ne hk]
        exact ha4
  · -- the stakestats row exists and is erased along with the account row
    simp only [chk_ok_iff, Except.ok.injEq] at hrest
    obtain ⟨-, hrest⟩ := hrest
    subst hrest
    obtain ⟨hro, a4, ha4, hmir⟩ := hI.stkOk symbol.code owner r hK
    have ha4a : a = a4 := by
      rw [hA] at ha4
      exact Option.some.inj ha4
    subst ha4a
    have hrz : r.staked_balance.amount = 0 := by
      rw [hmir]
      exact hs0
    refine ⟨hI.ndS, keysNodup_aerase hI.ndA, keysNodup_aerase hI.ndK, hI.ndT, hI.ndU,
      ?_, ?_, hI.totEx, ?_, ?_, ?_, ?_⟩
    · intro c' st' hst'
      try simp only at hst'
      obtain ⟨g1, g2, g3, g4, g5, g6⟩ := hI.statOk _ _ hst'
      refine ⟨g1, g2, g3, g4, g5, ?_⟩
      rw [balSum_aerase_some hA]
      simp [g6, hb0]
    · intro o' c' a' ha'
      try simp only at ha'
      by_cases hk : ((o', c') : Nat × Nat) = (owner, symbol.code)
      · rw [hk, alookup_aerase_self hI.ndA] at ha'
        exact Option.noConfusion ha'
      · rw [alookup_aerase_ne hk] at ha'
        exact hI.acctOk o' c' a' ha'
    · intro c' t' ht'
      obtain ⟨⟨st4, hst4, hts4⟩, g2, g3⟩ := hI.totOk c' t' ht'
      refine ⟨⟨st4, hst4, hts4⟩, ?_, g3⟩
      rw [g2, stkSum_aerase_some hK]
      simp [hrz]
    · intro c' o' r' hr'
      try simp only at hr'
      by_cases hk : ((c', o') : Nat × Nat) = (symbol.code, owner)
      · rw [hk, alookup_aerase_self hI.ndK] at hr'
        exact Option.noConfusion hr'
      · rw [alookup_aerase_ne hk] at hr'
        obtain ⟨ho, a5, ha5, hmir5⟩ := hI.stkOk c' o' r' hr'
        refine ⟨ho, a5, ?_, hmir5⟩
        have hk2 : ((o', c') : Nat × Nat) ≠ (owner, symbol.code) := pair_ne_swap hk
        rw [alookup_aerase_ne hk2]
        exact ha5
    · intro c' o' a' hkn ha'
      try simp only at hkn ha'
      by_cases hk : ((o', c') : Nat × Nat) = (owner, symbol.code)
      · rw [hk, alookup_aerase_self hI.ndA] at ha'
        exact Option.noConfusion ha'
      · rw [alookup_aerase_ne hk] at ha'
        by_cases hk3 : ((c', o') : Nat × Nat) = (symbol.code, owner)
        · exfalso
          apply hk
          rw [Prod.mk.injEq] at hk3 ⊢
          exact ⟨hk3.2, hk3.1⟩
        · rw [alookup_aerase_ne hk3] at hkn
          exact hI.stkNone c' o' a' hkn ha'
    · intro c' o' r' hr'
      obtain ⟨ho, hp2, a5, ha5, hs5, hl5⟩ := hI.reqOk c' o' r' hr'
      by_cases hk : ((o', c') : Nat × Nat) = (owner, symbol.code)
      · exfalso
        have hk2 : ((c', o') : Nat × Nat) = (symbol.code, owner) := by
          rw [Prod.mk.injEq] at hk ⊢
          exact ⟨hk.2, hk.1⟩
        exact hreq r' (hk2 ▸ hr')
      · refine ⟨ho, hp2, a5, ?_, hs5, hl5⟩
        rw [alookup_aerase_ne hk]
        exact ha5

theorem inv_step {s s' : St} (o : Op) (hI : StInv s) (h : applyOp o s = .ok s') :
    StInv s' := by
  cases o with
  | create issuer maxs ia => exact inv_create hI h
  | setdelay sym d => exact inv_setdelay hI h
  | settransfee sym rate recv ia => exact inv_settransfee hI h
  | issue toA q m ia => exact inv_issue hI h
  | retire q m => exact inv_retire hI h
  | transfer sd rc q m ia => exact inv_transfer hI h
  | stake o q => exact inv_stake hI h
  | unstake o q now => exact inv_unstake hI h
  | refund o c now => exact inv_refund hI h
  | cancelrefund o c => exact inv_cancelrefund hI h
  | openA o sym ia => exact inv_open hI h
  | closeA o sym => exact inv_close hI h

/-- Every reachable contract state satisfies the full invariant. -/
theorem reachable_inv {s : St} (h : Reachable s) : StInv s := by
  induction h with
  | init => exact inv_emptySt
  | step o hR hA ih => exact inv_step o ih hA

theorem balSum_nonneg {s : St} (hI : StInv s) (c : Nat) : 0 ≤ balSum s.accounts c := by
  apply wsum_nonneg
  intro p hp
  by_cases hpc : p.1.2 = c
  · have hl : alookup s.accounts p.1 = some p.2 := mem_alookup hI.ndA (by simpa using hp)
    obtain ⟨-, -, h3, h4, -⟩ := hI.acctOk p.1.1 p.1.2 p.2 hl
    simp only [if_pos hpc]
    linarith
  · simp [hpc]

theorem balance_le_balSum {s : St} (hI : StInv s) {o c : Nat} {a : AccountRec}
    (ha : alookup s.accounts (o, c) = some a) :
    a.balance.amount ≤ balSum s.accounts c := by
  have hn : ∀ p ∈ s.accounts,
      0 ≤ (fun p => if p.1.2 = c then p.2.balance.amount else 0) p := by
    intro p hp
    by_cases hpc : p.1.2 = c
    · have hl : alookup s.accounts p.1 = some p.2 := mem_alookup hI.ndA (by simpa using hp)
      obtain ⟨-, -, h3, h4, -⟩ := hI.acctOk p.1.1 p.1.2 p.2 hl
      simp only [if_pos hpc]
      linarith
    · simp [hpc]
  have h2 := alookup_le_wsum ha hn
  simpa [balSum] using h2

/-- Inversion principle for `token::unstake`. -/
theorem unstake_ok_iff {owner now : Nat} {q : Asset} {s s' : St} :
    Token.unstake owner q now s = .ok s' ↔
      ∃ st a, alookup s.stats q.sym.code = some st ∧
        alookup s.accounts (owner, q.sym.code) = some a ∧
        assetValid q = true ∧ 0 < q.amount ∧
        a.staked_balance.sym = q.sym ∧ q.amount ≤ a.staked_balance.amount ∧
        alookup s.unstakes (q.sym.code, owner) = none ∧
        s' = { s with unstakes := aset s.unstakes (q.sym.code, owner) ⟨owner, now, (now + st.refund_delay) % (2 ^ 64), q⟩ } := by
  simp only [Token.unstake, chk_ok_iff, mreq_ok_iff, ageChk_ok_iff, Except.ok.injEq]
  constructor
  · rintro ⟨h1, h2, st, hst, a, ha, h3, h4, h5, h6⟩
    exact ⟨st, a, hst, ha, h1, h2, h3, h4, h5, h6.symm⟩
  · rintro ⟨st, a, hst, ha, h1, h2, h3, h4, h5, rfl⟩
    exact ⟨h1, h2, st, hst, a, ha, h3, h4, h5, rfl⟩

/-- Inversion principle for `token::cancelrefund`. -/
theorem cancelrefund_ok_iff {o c : Nat} {s s' : St} :
    Token.cancelrefund o c s = .ok s' ↔
      (∃ r, alookup s.unstakes (c, o) = some r) ∧
      s' = { s with unstakes := aerase s.unstakes (c, o) } := by
  simp only [Token.cancelrefund, mreq_ok_iff, Except.ok.injEq]
  constructor
  · rintro ⟨r, hr, h⟩
    exact ⟨⟨r, hr⟩, h.symm⟩
  · rintro ⟨⟨r, hr⟩, rfl⟩
    exact ⟨r, hr, rfl⟩

/-- Concrete symbol "BOT" (raw code bytes 66, 79, 84), precision 4. -/
def symBOT : Symb := ⟨5525314, 4⟩

/-- Host account-existence oracle accepting every name. -/
def accAll : Nat → Bool := fun _ => true

/-- Extract the state of a successful action (test fixtures only). -/
def okOr (m : M St) : St :=
  match m with
  | .ok s => s
  | .error _ => emptySt

/-- Fixture: account 1 creates the BOT asset with max supply 1000. -/
def fxS1 : St := okOr (Token.create 1 ⟨1000, symBOT⟩ accAll emptySt)

/-- Fixture: issuing 500 BOT with `to = 2` (the issuer is account 1). -/
def fxS2 : St := okOr (Token.issue 2 ⟨500, symBOT⟩ 0 accAll fxS1)

/-- Fixture: the issuer stakes 100 BOT. -/
def fxS3 : St := okOr (Token.stake 1 ⟨100, symBOT⟩ fxS2)

/-- Fixture: unstake request for 50 BOT at time 10 (refund delay still 0). -/
def fxS4 : St := okOr (Token.unstake 1 ⟨50, symBOT⟩ 10 fxS3)

/-- Fixture: refund delay set to 60 seconds. -/
def fxS3d : St := okOr (Token.setdelay symBOT 60 fxS3)

/-- Fixture: unstake request for 50 BOT at time 0 with refund delay 60. -/
def fxS4d : St := okOr (Token.unstake 1 ⟨50, symBOT⟩ 0 fxS3d)

/-- Fixture: account 3 opened with zero balances (account and stake rows). -/
def fxS5 : St := okOr (Token.open_account 3 symBOT accAll fxS2)

theorem reach_fxS1 : Reachable fxS1 :=
  Reachable.step (Op.create 1 ⟨1000, symBOT⟩ accAll) Reachable.init rfl

theorem reach_fxS2 : Reachable fxS2 :=
  Reachable.step (Op.issue 2 ⟨500, symBOT⟩ 0 accAll) reach_fxS1 rfl

theorem reach_fxS3 : Reachable fxS3 :=
  Reachable.step (Op.stake 1 ⟨100, symBOT⟩) reach_fxS2 rfl

theorem reach_fxS4 : Reachable fxS4 :=
  Reachable.step (Op.unstake 1 ⟨50, symBOT⟩ 10) reach_fxS3 rfl

theorem reach_fxS3d : Reachable fxS3d :=
  Reachable.step (Op.setdelay symBOT 60) reach_fxS3 rfl

theorem reach_fxS4d : Reachable fxS4d :=
  Reachable.step (Op.unstake 1 ⟨50, symBOT⟩ 0) reach_fxS3d rfl

theorem reach_fxS5 : Reachable fxS5 :=
  Reachable.step (Op.openA 3 symBOT accAll) reach_fxS2 rfl

/-- C2: for every registered symbol, in every state reachable by successful
actions (in particular after any sequence of issue/retire/transfer from a
freshly created asset), the sum of all `account.balance` amounts for that
symbol equals `currency_stats.supply.amount`. -/
theorem c2_conservation {s : St} (hR : Reachable s) :
    ∀ c st, alookup s.stats c = some st → st.supply.amount = balSum s.accounts c :=
  fun c st hst => ((reachable_inv hR).statOk c st hst).2.2.2.2.2

theorem c2_conservation_witness :
    (⟨⟨500, symBOT⟩, ⟨1000, symBOT⟩, 1, 0, 0, 1⟩ : CurrencyStats).supply.amount =
      balSum fxS2.accounts symBOT.code :=
  c2_conservation reach_fxS2 symBOT.code _ rfl

/-- C3: in every reachable state every account row satisfies
`0 ≤ staked_balance.amount ≤ balance.amount`; moreover the two debit paths
(`transfer`, `retire`) reject any debit that would leave the balance below
the staked balance, and `stake` rejects any stake exceeding
`balance − staked_balance` (an `.error` result is a rejected action that
changes nothing). -/
theorem c3_staking_bound {s : St} (hR : Reachable s) :
    (∀ o c a, alookup s.accounts (o, c) = some a →
      0 ≤ a.staked_balance.amount ∧ 0 ≤ a.balance.amount ∧
      a.staked_balance.amount ≤ a.balance.amount) ∧
    (∀ sender receiver memoLen : Nat, ∀ ia : Nat → Bool, ∀ q : Asset,
      ∀ a : AccountRec,
      alookup s.accounts (sender, q.sym.code) = some a →
      a.balance.amount - q.amount < a.staked_balance.amount →
      ∃ e, Token.transfer sender receiver q memoLen ia s = .error e) ∧
    (∀ memoLen : Nat, ∀ q : Asset, ∀ st : CurrencyStats, ∀ a : AccountRec,
      alookup s.stats q.sym.code = some st →
      alookup s.accounts (st.issuer, q.sym.code) = some a →
      a.balance.amount - q.amount < a.staked_balance.amount →
      ∃ e, Token.retire q memoLen s = .error e) ∧
    (∀ owner : Nat, ∀ q : Asset, ∀ a : AccountRec,
      alookup s.accounts (owner, q.sym.code) = some a →
      a.balance.amount - a.staked_balance.amount < q.amount →
      ∃ e, Token.stake owner q s = .error e) := by
  have hI := reachable_inv hR
  refine ⟨?_, ?_, ?_, ?_⟩
  · intro o c a ha
    obtain ⟨-, -, h3, h4, -⟩ := hI.acctOk o c a ha
    exact ⟨h3, by linarith, h4⟩
  · intro sender receiver memoLen ia q a ha hlt
    rcases hres : Token.transfer sender receiver q memoLen ia s with e | s'
    · exact ⟨e, rfl⟩
    · exfalso
      simp only [Token.transfer, chk_ok_iff, mreq_ok_iff, mlet_ok_iff] at hres
      obtain ⟨-, -, st, -, -, -, -, -, s1, hSB, -⟩ := hres
      obtain ⟨a0, ha0, hchk, -⟩ := sub_balance_ok hSB
      rw [ha] at ha0
      obtain rfl : a = a0 := Option.some.inj ha0
      omega
  · intro memoLen q st a hst ha hlt
    rcases hres : Token.retire q memoLen s with e | s'
    · exact ⟨e, rfl⟩
    · exfalso
      simp only [Token.retire, chk_ok_iff, mreq_ok_iff, mlet_ok_iff, asub_ok_iff] at hres
      obtain ⟨-, -, st0, hst0, -, -, -, sup, -, hSB⟩ := hres
      obtain rfl : st = st0 := by
        rw [hst] at hst0
        exact Option.some.inj hst0
      obtain ⟨a0, ha0, hchk, -⟩ := sub_balance_ok hSB
      try simp only at ha0
      rw [ha] at ha0
      obtain rfl : a = a0 := Option.some.inj ha0
      omega
  · intro owner q a ha hlt
    rcases hres : Token.stake owner q s with e | s'
    · exact ⟨e, rfl⟩
    · exfalso
      simp only [Token.stake, chk_ok_iff, mreq_ok_iff, mlet_ok_iff, aadd_ok_iff,
        ageChk_ok_iff] at hres
      obtain ⟨-, -, a0, ha0, stk, ⟨-, -, rfl⟩, -, hble, -⟩ := hres
      rw [ha] at ha0
      obtain rfl : a = a0 := Option.some.inj ha0
      simp only at hble
      omega

theorem c3_staking_bound_witness :
    (0 ≤ (100 : Int) ∧ 0 ≤ (500 : Int) ∧ (100 : Int) ≤ 500) ∧
    (∃ e, Token.transfer 1 3 ⟨450, symBOT⟩ 0 accAll fxS3 = .error e) := by
  have h := c3_staking_bound reach_fxS3
  constructor
  · exact h.1 1 symBOT.code ⟨⟨500, symBOT⟩, ⟨100, symBOT⟩⟩ rfl
  · exact h.2.1 1 3 0 accAll ⟨450, symBOT⟩ ⟨⟨500, symBOT⟩, ⟨100, symBOT⟩⟩ rfl (by decide)

/-- C4: for every symbol, in every reachable state the `totalstake` aggregate
equals the sum of all `stake_stats.staked_balance` rows for that symbol. -/
theorem c4_aggregate {s : St} (hR : Reachable s) :
    ∀ c t, alookup s.totals c = some t →
      t.staked_balance_total.amount = stkSum s.stakes c :=
  fun c t ht => ((reachable_inv hR).totOk c t ht).2.1

theorem c4_aggregate_witness :
    (⟨⟨100, symBOT⟩⟩ : TotalRec).staked_balance_total.amount = stkSum fxS3.stakes symBOT.code :=
  c4_aggregate reach_fxS3 symBOT.code _ rfl

/-- C10: the read-only queries abort (return no value) instead of reporting a
zero amount: `get_balance` for an owner without an account row, and
`get_supply` for an unregistered symbol. -/
theorem c10_get_fails {s : St} {o c : Nat} :
    (alookup s.accounts (o, c) = none → Token.get_balance o c s = none) ∧
    (alookup s.stats c = none → Token.get_supply c s = none) := by
  constructor
  · intro h
    unfold Token.get_balance
    rw [h]
    rfl
  · intro h
    unfold Token.get_supply
    rw [h]
    rfl

theorem c10_get_fails_witness :
    Token.get_balance 2 symBOT.code fxS2 = none ∧ Token.get_supply 999 fxS2 = none :=
  ⟨(@c10_get_fails fxS2 2 symBOT.code).1 rfl, (@c10_get_fails fxS2 0 999).2 rfl⟩

theorem chk_of_pos {c : Prop} [Decidable c] {e : Err} {k : M St} (hc : c) :
    chk c e k = k := if_pos hc

theorem chk_of_neg {c : Prop} [Decidable c] {e : Err} {k : M St} (hc : ¬c) :
    chk c e k = .error e := if_neg hc

theorem mreq_some {α : Type} {a : α} {e : Err} {k : α → M St} :
    mreq (some a) e k = k a := rfl

theorem mreq_none {α : Type} {e : Err} {k : α → M St} :
    mreq (none : Option α) e k = .error e := rfl

theorem mlet_ok {α β : Type} {a : α} {k : α → M β} : mlet (.ok a) k = k a := rfl

theorem ageChk_of_pos {a b : Asset} {e : Err} {k : M St}
    (h1 : a.sym = b.sym) (h2 : b.amount ≤ a.amount) : ageChk a b e k = k := by
  unfold ageChk
  rw [if_pos h1, if_pos h2]

theorem stkSum_entries_nonneg {s : St} (hI : StInv s) (c : Nat) :
    ∀ p ∈ s.stakes, 0 ≤ (fun p => if p.1.1 = c then p.2.staked_balance.amount else 0) p := by
  intro p hp
  by_cases hpc : p.1.1 = c
  · have hl : alookup s.stakes p.1 = some p.2 := mem_alookup hI.ndK (by simpa using hp)
    obtain ⟨-, a2, ha2, hmir2⟩ := hI.stkOk p.1.1 p.1.2 p.2 hl
    obtain ⟨-, -, h3, -⟩ := hI.acctOk p.1.2 p.1.1 a2 ha2
    simp only [if_pos hpc]
    rw [hmir2]
    linarith
  · simp [hpc]

/-- Fixture: refund delay set to `2^64 − 1` (any `uint64_t` is accepted). -/
def fxS3w : St := okOr (Token.setdelay symBOT (2 ^ 64 - 1) fxS3)

/-- Fixture: unstake request for 50 BOT at time 1 with delay `2^64 − 1`. -/
def fxS4w : St := okOr (Token.unstake 1 ⟨50, symBOT⟩ 1 fxS3w)

theorem reach_fxS3w : Reachable fxS3w :=
  Reachable.step (Op.setdelay symBOT (2 ^ 64 - 1)) reach_fxS3 rfl

/-- C7 counterexample: `setdelay` (boatwingio.cpp:50) stores any `uint64_t`
delay unchecked, and `unstake` computes `refund_time = now + refund_delay`
in `uint64_t` (boatwingio.cpp:215), which wraps mod `2^64`.  From the
reachable state `fxS3w`, whose registered delay is `2^64 − 1`, a successful
`unstake` at time 1 stores `refund_time = (1 + (2^64 − 1)) mod 2^64 = 0`,
not `now + refund_delay = 2^64`, refuting the claimed equation. -/
theorem c7_counterexample :
    Reachable fxS3w ∧
    (alookup fxS3w.stats symBOT.code).map CurrencyStats.refund_delay =
      some (2 ^ 64 - 1) ∧
    Token.unstake 1 ⟨50, symBOT⟩ 1 fxS3w = .ok fxS4w ∧
    alookup fxS4w.unstakes (symBOT.code, 1) = some ⟨1, 1, 0, ⟨50, symBOT⟩⟩ ∧
    (0 : Nat) ≠ 1 + (2 ^ 64 - 1) :=
  ⟨reach_fxS3w, rfl, rfl, rfl, by decide⟩

/-- C7 (amended): a successful `unstake` only creates the pending
`unstake_stats` row, with `refund_time = (now + refund_delay) mod 2^64` —
the `uint64_t` addition on boatwingio.cpp:215 wraps — read from the `stat`
row; the accounts, stat, stakestats and totalstake tables are untouched and
no request existed before. -/
theorem c7_unstake_frame {owner now : Nat} {q : Asset} {s s' : St}
    (h : Token.unstake owner q now s = .ok s') :
    ∃ st, alookup s.stats q.sym.code = some st ∧
      s'.stats = s.stats ∧ s'.accounts = s.accounts ∧ s'.stakes = s.stakes ∧
      s'.totals = s.totals ∧
      alookup s.unstakes (q.sym.code, owner) = none ∧
      s'.unstakes = aset s.unstakes (q.sym.code, owner)
        ⟨owner, now, (now + st.refund_delay) % (2 ^ 64), q⟩ := by
  obtain ⟨st, a, hst, ha, h1, h2, h3, h4, h5, rfl⟩ := unstake_ok_iff.mp h
  exact ⟨st, hst, rfl, rfl, rfl, rfl, h5, rfl⟩

theorem c7_unstake_frame_witness :
    ∃ st, alookup fxS3.stats symBOT.code = some st ∧
      fxS4.stats = fxS3.stats ∧ fxS4.accounts = fxS3.accounts ∧
      fxS4.stakes = fxS3.stakes ∧ fxS4.totals = fxS3.totals ∧
      alookup fxS3.unstakes (symBOT.code, 1) = none ∧
      fxS4.unstakes = aset fxS3.unstakes (symBOT.code, 1)
        ⟨1, 10, (10 + st.refund_delay) % (2 ^ 64), ⟨50, symBOT⟩⟩ :=
  c7_unstake_frame (rfl : Token.unstake 1 ⟨50, symBOT⟩ 10 fxS3 = .ok fxS4)

/-- C6 counterexample: `fxS4` holds a pending request for (BOT, owner 1), yet
a second `unstake` with quantity 0 fails with the "must unstake positive
quantity" check (ValidationError), not with DuplicateError — the duplicate
check on boatwingio.cpp:209 runs only after the quantity checks. -/
theorem c6_counterexample :
    alookup fxS4.unstakes (symBOT.code, 1) = some ⟨1, 10, 10, ⟨50, symBOT⟩⟩ ∧
    Token.unstake 1 ⟨0, symBOT⟩ 99 fxS4 = .error .validationError ∧
    Err.validationError ≠ Err.duplicateError :=
  ⟨rfl, rfl, by decide⟩

/-- C6 (amended): while a request is pending for (symbol, owner), a second
`unstake` never succeeds; it fails with DuplicateError exactly when the
quantity passes the checks that precede the duplicate check (validity,
positivity, symbol match with and bound by the staked balance); a quantity
failing those checks reports that earlier error instead. -/
theorem c6_second_unstake_fails {s : St} {o now : Nat} {q : Asset} {r : UnstakeRec}
    (hR : Reachable s) (hr : alookup s.unstakes (q.sym.code, o) = some r) :
    (∃ e, Token.unstake o q now s = .error e) ∧
    (assetValid q = true → 0 < q.amount →
      ∀ a, alookup s.accounts (o, q.sym.code) = some a →
        q.sym = a.staked_balance.sym → q.amount ≤ a.staked_balance.amount →
        Token.unstake o q now s = .error .duplicateError) := by
  constructor
  · rcases hres : Token.unstake o q now s with e | s'
    · exact ⟨e, rfl⟩
    · exfalso
      obtain ⟨-, -, -, -, -, -, -, -, h5, -⟩ := unstake_ok_iff.mp hres
      rw [hr] at h5
      exact Option.noConfusion h5
  · intro hval hpos a ha hsym hle
    have hI := reachable_inv hR
    obtain ⟨⟨st, hst, -⟩, -⟩ := hI.acctOk o q.sym.code a ha
    unfold Token.unstake
    rw [chk_of_pos hval, chk_of_pos hpos, hst, mreq_some, ha, mreq_some,
      ageChk_of_pos hsym.symm hle]
    apply chk_of_neg
    intro hh
    rw [hr] at hh
    exact Option.noConfusion hh

theorem c6_second_unstake_fails_witness :
    (∃ e, Token.unstake 1 ⟨0, symBOT⟩ 99 fxS4 = .error e) ∧
    Token.unstake 1 ⟨50, symBOT⟩ 99 fxS4 = .error .duplicateError := by
  constructor
  · exact (c6_second_unstake_fails (q := ⟨0, symBOT⟩) reach_fxS4
      (rfl : alookup fxS4.unstakes (symBOT.code, 1) = some ⟨1, 10, 10, ⟨50, symBOT⟩⟩)).1
  · exact (c6_second_unstake_fails (q := ⟨50, symBOT⟩) reach_fxS4
      (rfl : alookup fxS4.unstakes (symBOT.code, 1) = some ⟨1, 10, 10, ⟨50, symBOT⟩⟩)).2
      rfl (by decide) ⟨⟨500, symBOT⟩, ⟨100, symBOT⟩⟩ rfl rfl (by decide)

theorem add_balance_of_none {o : Nat} {v : Asset} {s : St}
    (ha : alookup s.accounts (o, v.sym.code) = none) :
    Token.add_balance o v s =
      .ok { s with accounts := aset s.accounts (o, v.sym.code) ⟨v, ⟨0, v.sym⟩⟩ } := by
  unfold Token.add_balance
  rw [ha]

theorem add_balance_of_some {o : Nat} {v : Asset} {s : St} {a : AccountRec} {b : Asset}
    (ha : alookup s.accounts (o, v.sym.code) = some a)
    (hadd : aadd a.balance v = .ok b) :
    Token.add_balance o v s =
      .ok { s with accounts := aset s.accounts (o, v.sym.code) { a with balance := b } } := by
  unfold Token.add_balance
  rw [ha]
  show mlet (aadd a.balance v)
    (fun b => .ok { s with accounts := aset s.accounts (o, v.sym.code) { a with balance := b } }) = _
  rw [hadd, mlet_ok]

/-- C1 counterexample: issuing with `to = 2` (issuer is account 1) succeeds
under all of the claim's preconditions, yet account 2 gets no account row and
no credit — `token::issue` credits the issuer (boatwingio.cpp:96). -/
theorem c1_counterexample :
    Token.issue 2 ⟨500, symBOT⟩ 0 accAll fxS1 = .ok fxS2 ∧
    alookup fxS1.stats symBOT.code = some ⟨⟨0, symBOT⟩, ⟨1000, symBOT⟩, 1, 0, 0, 1⟩ ∧
    (2 : Nat) ≠ 1 ∧
    alookup fxS2.accounts (2, symBOT.code) = none ∧
    alookup fxS2.accounts (1, symBOT.code) = some ⟨⟨500, symBOT⟩, ⟨0, symBOT⟩⟩ :=
  ⟨rfl, rfl, by decide, rfl, rfl⟩

/-- C1 (amended): for every registered symbol and issuer-authorized
`issue(to, quantity, memo)` satisfying the preconditions (`quantity > 0`,
memo ≤ 256 bytes, symbol matches the registry exactly,
`supply + quantity ≤ max_supply`, `to` an existing account), the action
succeeds, increments `supply` by `quantity`, and credits the ISSUER's
spendable balance by `quantity`, creating the issuer's account row if it is
absent; every other account row, the stakestats, totalstake and
unstakestats tables are untouched.  (`to` itself receives nothing unless it
is the issuer.) -/
theorem c1_issue_credits_issuer {s : St} {toA memoLen : Nat} {q : Asset}
    {ia : Nat → Bool} {st : CurrencyStats}
    (hR : Reachable s) (hia : ia toA = true)
    (hst : alookup s.stats q.sym.code = some st)
    (hsym : q.sym = st.supply.sym) (hpos : 0 < q.amount) (hmemo : memoLen ≤ 256)
    (hcap : st.supply.amount + q.amount ≤ st.max_supply.amount) :
    ∃ s', Token.issue toA q memoLen ia s = .ok s' ∧
      alookup s'.stats q.sym.code =
        some { st with supply := ⟨st.supply.amount + q.amount, st.supply.sym⟩ } ∧
      ((alookup s.accounts (st.issuer, q.sym.code) = none ∧
          alookup s'.accounts (st.issuer, q.sym.code) = some ⟨q, ⟨0, q.sym⟩⟩) ∨
        (∃ a, alookup s.accounts (st.issuer, q.sym.code) = some a ∧
          alookup s'.accounts (st.issuer, q.sym.code) =
            some { a with balance := ⟨a.balance.amount + q.amount, a.balance.sym⟩ })) ∧
      (∀ k, k ≠ ((st.issuer, q.sym.code) : Nat × Nat) →
        alookup s'.accounts k = alookup s.accounts k) ∧
      s'.stakes = s.stakes ∧ s'.totals = s.totals ∧ s'.unstakes = s.unstakes := by
  have hI := reachable_inv hR
  obtain ⟨hsc, hms, hcv2, hmp, hmb, hcons⟩ := hI.statOk _ _ hst
  have hcv : codeValid q.sym.code = true := by
    rw [hsym]
    exact hcv2
  have hsupnn : 0 ≤ st.supply.amount := by
    rw [hcons]
    exact balSum_nonneg hI _
  have hmaxnn : (0 : Int) ≤ maxAmt := by
    simp only [maxAmt]
    norm_num
  have hval : assetValid q = true := by
    simp only [assetValid, Bool.and_eq_true, decide_eq_true_eq]
    refine ⟨⟨by linarith, by linarith⟩, hcv⟩
  have hcap' : q.amount ≤ st.max_supply.amount - st.supply.amount := by linarith
  have hrange : -maxAmt ≤ st.supply.amount + q.amount ∧
      st.supply.amount + q.amount ≤ maxAmt := ⟨by linarith, by linarith⟩
  rcases hacc : alookup s.accounts (st.issuer, q.sym.code) with _ | a
  · have hAB : Token.add_balance st.issuer q { s with stats := aset s.stats q.sym.code { st with supply := ⟨st.supply.amount + q.amount, st.supply.sym⟩ } } = .ok { s with stats := aset s.stats q.sym.code { st with supply := ⟨st.supply.amount + q.amount, st.supply.sym⟩ }, accounts := aset s.accounts (st.issuer, q.sym.code) ⟨q, ⟨0, q.sym⟩⟩ } :=
      add_balance_of_none (show alookup ({ s with stats := aset s.stats q.sym.code { st with supply := ⟨st.supply.amount + q.amount, st.supply.sym⟩ } } : St).accounts (st.issuer, q.sym.code) = none from hacc)
    refine ⟨{ s with stats := aset s.stats q.sym.code { st with supply := ⟨st.supply.amount + q.amount, st.supply.sym⟩ }, accounts := aset s.accounts (st.issuer, q.sym.code) ⟨q, ⟨0, q.sym⟩⟩ }, ?_, ?_, Or.inl ⟨rfl, ?_⟩, ?_, rfl, rfl, rfl⟩
    · unfold Token.issue
      rw [chk_of_pos hia, chk_of_pos hcv, chk_of_pos hmemo, hst, mreq_some,
        chk_of_pos hval, chk_of_pos hpos, chk_of_pos hsym, chk_of_pos hcap',
        show aadd st.supply q = .ok ⟨st.supply.amount + q.amount, st.supply.sym⟩ from
          aadd_ok_iff.mpr ⟨hsym.symm, hrange, rfl⟩, mlet_ok]
      exact hAB
    · exact alookup_aset_self
    · exact alookup_aset_self
    · intro k hk
      exact alookup_aset_ne hk
  · obtain ⟨⟨st2, hst2, hbs0⟩, gsym, gnn, gle, gmax⟩ := hI.acctOk st.issuer q.sym.code a hacc
    have hEq : st2 = st := by
      rw [hst] at hst2
      exact (Option.some.inj hst2).symm
    rw [hEq] at hbs0
    have hble : a.balance.amount ≤ balSum s.accounts q.sym.code :=
      balance_le_balSum hI hacc
    have habsym : a.balance.sym = q.sym := hbs0.trans hsym.symm
    have hrange2 : -maxAmt ≤ a.balance.amount + q.amount ∧
        a.balance.amount + q.amount ≤ maxAmt := by
      constructor
      · linarith
      · rw [← hcons] at hble
        linarith
    have hAB : Token.add_balance st.issuer q { s with stats := aset s.stats q.sym.code { st with supply := ⟨st.supply.amount + q.amount, st.supply.sym⟩ } } = .ok { s with stats := aset s.stats q.sym.code { st with supply := ⟨st.supply.amount + q.amount, st.supply.sym⟩ }, accounts := aset s.accounts (st.issuer, q.sym.code) { a with balance := ⟨a.balance.amount + q.amount, a.balance.sym⟩ } } :=
      add_balance_of_some (show alookup ({ s with stats := aset s.stats q.sym.code { st with supply := ⟨st.supply.amount + q.amount, st.supply.sym⟩ } } : St).accounts (st.issuer, q.sym.code) = some a from hacc) (aadd_ok_iff.mpr ⟨habsym, hrange2, rfl⟩)
    refine ⟨{ s with stats := aset s.stats q.sym.code { st with supply := ⟨st.supply.amount + q.amount, st.supply.sym⟩ }, accounts := aset s.accounts (st.issuer, q.sym.code) { a with balance := ⟨a.balance.amount + q.amount, a.balance.sym⟩ } }, ?_, ?_, Or.inr ⟨a, rfl, ?_⟩, ?_, rfl, rfl, rfl⟩
    · unfold Token.issue
      rw [chk_of_pos hia, chk_of_pos hcv, chk_of_pos hmemo, hst, mreq_some,
        chk_of_pos hval, chk_of_pos hpos, chk_of_pos hsym, chk_of_pos hcap',
        show aadd st.supply q = .ok ⟨st.supply.amount + q.amount, st.supply.sym⟩ from
          aadd_ok_iff.mpr ⟨hsym.symm, hrange, rfl⟩, mlet_ok]
      exact hAB
    · exact alookup_aset_self
    · exact alookup_aset_self
    · intro k hk
      exact alookup_aset_ne hk

theorem c1_issue_credits_issuer_witness :
    ∃ s', Token.issue 7 ⟨500, symBOT⟩ 0 accAll fxS1 = .ok s' ∧
      alookup s'.stats symBOT.code =
        some ⟨⟨500, symBOT⟩, ⟨1000, symBOT⟩, 1, 0, 0, 1⟩ ∧
      ((alookup fxS1.accounts (1, symBOT.code) = none ∧
          alookup s'.accounts (1, symBOT.code) = some ⟨⟨500, symBOT⟩, ⟨0, symBOT⟩⟩) ∨
        (∃ a, alookup fxS1.accounts (1, symBOT.code) = some a ∧
          alookup s'.accounts (1, symBOT.code) =
            some { a with balance := ⟨a.balance.amount + 500, a.balance.sym⟩ })) ∧
      (∀ k, k ≠ ((1, symBOT.code) : Nat × Nat) →
        alookup s'.accounts k = alookup fxS1.accounts k) ∧
      s'.stakes = fxS1.stakes ∧ s'.totals = fxS1.totals ∧ s'.unstakes = fxS1.unstakes :=
  @c1_issue_credits_issuer fxS1 7 0 ⟨500, symBOT⟩ accAll
    ⟨⟨0, symBOT⟩, ⟨1000, symBOT⟩, 1, 0, 0, 1⟩
    reach_fxS1 rfl rfl rfl (by decide) (by decide) (by decide)

theorem close_ok_none {owner : Nat} {symbol : Symb} {s : St} {a : AccountRec}
    (hA : alookup s.accounts (owner, symbol.code) = some a)
    (hz : a.balance.amount = 0 ∧ a.staked_balance.amount = 0)
    (hK : alookup s.stakes (symbol.code, owner) = none) :
    Token.close owner symbol s =
      .ok { s with accounts := aerase s.accounts (owner, symbol.code) } := by
  unfold Token.close
  rw [hA, mreq_some, chk_of_pos hz]
  simp only [hK]

theorem close_ok_some {owner : Nat} {symbol : Symb} {s : St} {a : AccountRec}
    {r : StakeRec}
    (hA : alookup s.accounts (owner, symbol.code) = some a)
    (hz : a.balance.amount = 0 ∧ a.staked_balance.amount = 0)
    (hK : alookup s.stakes (symbol.code, owner) = some r) :
    Token.close owner symbol s =
      .ok { s with accounts := aerase s.accounts (owner, symbol.code), stakes := aerase s.stakes (symbol.code, owner) } := by
  unfold Token.close
  rw [hA, mreq_some, chk_of_pos hz]
  simp only [hK]
  rw [chk_of_pos hz.2]

/-- C9: `close(owner, symbol)` succeeds exactly when the account row exists
with both `balance` and `staked_balance` amounts zero; success erases the
account row and (when present) the stakestats row and touches nothing else;
a nonzero field makes it fail with InvariantError (and, the embedding being
transactional, change nothing). -/
theorem c9_close_spec {s : St} {owner : Nat} {symbol : Symb} :
    ((∃ s', Token.close owner symbol s = .ok s') ↔
      (∃ a, alookup s.accounts (owner, symbol.code) = some a ∧
        a.balance.amount = 0 ∧ a.staked_balance.amount = 0)) ∧
    (∀ s', Token.close owner symbol s = .ok s' →
      s'.accounts = aerase s.accounts (owner, symbol.code) ∧
      s'.stakes = aerase s.stakes (symbol.code, owner) ∧
      s'.stats = s.stats ∧ s'.totals = s.totals ∧ s'.unstakes = s.unstakes) ∧
    (∀ a, alookup s.accounts (owner, symbol.code) = some a →
      a.balance.amount ≠ 0 ∨ a.staked_balance.amount ≠ 0 →
      Token.close owner symbol s = .error .invariantError) := by
  refine ⟨⟨?_, ?_⟩, ?_, ?_⟩
  · rintro ⟨s', h⟩
    simp only [Token.close, mreq_ok_iff, chk_ok_iff] at h
    obtain ⟨a, hA, ⟨hb, hs0⟩, -⟩ := h
    exact ⟨a, hA, hb, hs0⟩
  · rintro ⟨a, hA, hb, hs0⟩
    rcases hK : alookup s.stakes (symbol.code, owner) with _ | r
    · exact ⟨_, close_ok_none hA ⟨hb, hs0⟩ hK⟩
    · exact ⟨_, close_ok_some hA ⟨hb, hs0⟩ hK⟩
  · intro s' h
    simp only [Token.close, mreq_ok_iff, chk_ok_iff] at h
    obtain ⟨a, hA, ⟨hb, hs0⟩, hrest⟩ := h
    rcases hK : alookup s.stakes (symbol.code, owner) with _ | r <;>
      rw [hK] at hrest <;> try simp only at hrest
    · simp only [Except.ok.injEq] at hrest
      subst hrest
      refine ⟨rfl, ?_, rfl, rfl, rfl⟩
      rw [aerase_of_none hK]
    · simp only [chk_ok_iff, Except.ok.injEq] at hrest
      obtain ⟨-, hrest⟩ := hrest
      subst hrest
      exact ⟨rfl, rfl, rfl, rfl, rfl⟩
  · intro a hA hne
    unfold Token.close
    rw [hA, mreq_some]
    apply chk_of_neg
    rintro ⟨h1, h2⟩
    rcases hne with h | h
    · exact h h1
    · exact h h2

theorem c9_close_spec_witness :
    (∃ s', Token.close 3 symBOT fxS5 = .ok s') ∧
    Token.close 1 symBOT fxS2 = .error .invariantError := by
  constructor
  · exact (@c9_close_spec fxS5 3 symBOT).1.mpr ⟨⟨⟨0, symBOT⟩, ⟨0, symBOT⟩⟩, rfl, rfl, rfl⟩
  · exact (@c9_close_spec fxS2 1 symBOT).2.2 ⟨⟨500, symBOT⟩, ⟨0, symBOT⟩⟩ rfl
      (Or.inl (by decide))

theorem inline_refund_ok_of {o c now : Nat} {s : St} {r : UnstakeRec}
    {a : AccountRec} {rec : StakeRec} {t : TotalRec}
    (hr : alookup s.unstakes (c, o) = some r)
    (hro : r.owner = o)
    (hge : r.refund_time ≤ now)
    (ha : alookup s.accounts (o, c) = some a)
    (h1 : a.balance.sym = r.amount.sym)
    (h2 : r.amount.amount ≤ a.balance.amount)
    (h3 : a.staked_balance.sym = r.amount.sym)
    (h4 : -maxAmt ≤ a.staked_balance.amount - r.amount.amount)
    (h5 : a.staked_balance.amount - r.amount.amount ≤ maxAmt)
    (hrec : alookup s.stakes (c, o) = some rec)
    (h6 : rec.staked_balance.sym = r.amount.sym)
    (h7 : -maxAmt ≤ rec.staked_balance.amount - r.amount.amount)
    (h8 : rec.staked_balance.amount - r.amount.amount ≤ maxAmt)
    (ht : alookup s.totals c = some t)
    (h9 : t.staked_balance_total.sym = r.amount.sym)
    (h10 : -maxAmt ≤ t.staked_balance_total.amount - r.amount.amount)
    (h11 : t.staked_balance_total.amount - r.amount.amount ≤ maxAmt) :
    Token.inline_refund o c now s = .ok { s with
      accounts := aset s.accounts (o, c) { a with staked_balance := ⟨a.staked_balance.amount - r.amount.amount, a.staked_balance.sym⟩ },
      stakes := aset s.stakes (c, o) ⟨o, ⟨rec.staked_balance.amount - r.amount.amount, rec.staked_balance.sym⟩⟩,
      totals := aset s.totals c ⟨⟨t.staked_balance_total.amount - r.amount.amount, t.staked_balance_total.sym⟩⟩,
      unstakes := aerase s.unstakes (c, o) } := by
  unfold Token.inline_refund
  rw [hr, mreq_some, chk_of_pos hro, chk_of_pos hge, ha, mreq_some,
    ageChk_of_pos h1 h2,
    show asub a.staked_balance r.amount = .ok ⟨a.staked_balance.amount - r.amount.amount, a.staked_balance.sym⟩ from asub_ok_iff.mpr ⟨h3, ⟨h4, h5⟩, rfl⟩,
    mlet_ok]
  simp only [hrec]
  rw [mreq_some,
    show asub rec.staked_balance r.amount = .ok ⟨rec.staked_balance.amount - r.amount.amount, rec.staked_balance.sym⟩ from asub_ok_iff.mpr ⟨h6, ⟨h7, h8⟩, rfl⟩,
    mlet_ok]
  simp only [ht]
  rw [mreq_some,
    show asub t.staked_balance_total r.amount = .ok ⟨t.staked_balance_total.amount - r.amount.amount, t.staked_balance_total.sym⟩ from asub_ok_iff.mpr ⟨h9, ⟨h10, h11⟩, rfl⟩,
    mlet_ok]

/-- C5: for a pending request in a reachable state, `refund` strictly before
`refund_time` fails with NotReadyError (so, the embedding being
transactional, changes nothing); at or after `refund_time` it succeeds, the
request row is gone, and any immediately following `refund` fails with
NotFoundError — the refund can be claimed exactly once. -/
theorem c5_refund_time_gate {s : St} {o c now : Nat} {r : UnstakeRec}
    (hR : Reachable s) (hr : alookup s.unstakes (c, o) = some r) :
    (now < r.refund_time → Token.refund o c now s = .error .notReadyError) ∧
    (r.refund_time ≤ now → ∃ s', Token.refund o c now s = .ok s' ∧
      alookup s'.unstakes (c, o) = none ∧
      ∀ now2, Token.refund o c now2 s' = .error .notFoundError) := by
  have hI := reachable_inv hR
  obtain ⟨hro, hrpos, a, ha, hrsym, hrle⟩ := hI.reqOk c o r hr
  obtain ⟨⟨st2, hst2, hbs⟩, gsym, gnn, gle, gmax⟩ := hI.acctOk o c a ha
  have hmaxnn : (0 : Int) ≤ maxAmt := by
    simp only [maxAmt]
    norm_num
  constructor
  · intro hlt
    unfold Token.refund Token.inline_refund
    rw [hr, mreq_some, chk_of_pos hro]
    apply chk_of_neg
    omega
  · intro hge
    rcases hrec : alookup s.stakes (c, o) with _ | rec
    · exfalso
      have h0 := hI.stkNone c o a hrec ha
      omega
    · obtain ⟨hreco, a3, ha3, hmir⟩ := hI.stkOk c o rec hrec
      have ha3a : a = a3 := by
        rw [ha] at ha3
        exact Option.some.inj ha3
      subst ha3a
      obtain ⟨t, ht⟩ := hI.totEx c st2 hst2
      obtain ⟨⟨st3, hst3, hts⟩, hsum, hmaxT⟩ := hI.totOk c t ht
      have hstEq : st3 = st2 := by
        rw [hst2] at hst3
        exact (Option.some.inj hst3).symm
      rw [hstEq] at hts
      have hle2 : rec.staked_balance.amount ≤ stkSum s.stakes c := by
        have h2 := alookup_le_wsum hrec (stkSum_entries_nonneg hI c)
        simpa [stkSum] using h2
      have h1 : a.balance.sym = r.amount.sym := (hrsym.trans gsym).symm
      have h3 : a.staked_balance.sym = r.amount.sym := hrsym.symm
      have h6 : rec.staked_balance.sym = r.amount.sym := by
        rw [hmir]
        exact hrsym.symm
      have h9 : t.staked_balance_total.sym = r.amount.sym := by
        rw [hts, ← hbs]
        exact h1
      have hmirA : rec.staked_balance.amount = a.staked_balance.amount := by
        rw [hmir]
      refine ⟨_, inline_refund_ok_of hr hro hge ha h1 (by linarith) h3 (by linarith)
        (by linarith) hrec h6 (by linarith) (by linarith) ht h9
        (by linarith [hsum, hle2]) (by linarith [hmaxT, hrpos]), ?_, ?_⟩
      · show alookup (aerase s.unstakes (c, o)) (c, o) = none
        exact alookup_aerase_self hI.ndU
      · intro now2
        unfold Token.refund Token.inline_refund
        show mreq (alookup (aerase s.unstakes (c, o)) (c, o)) Err.notFoundError _ =
          Except.error Err.notFoundError
        rw [alookup_aerase_self hI.ndU, mreq_none]

theorem c5_refund_time_gate_witness :
    Token.refund 1 symBOT.code 30 fxS4d = .error .notReadyError ∧
    ∃ s', Token.refund 1 symBOT.code 60 fxS4d = .ok s' ∧
      alookup s'.unstakes (symBOT.code, 1) = none ∧
      Token.refund 1 symBOT.code 99 s' = .error .notFoundError := by
  have hA := @c5_refund_time_gate fxS4d 1 symBOT.code 30 ⟨1, 0, 60, ⟨50, symBOT⟩⟩
    reach_fxS4d rfl
  have hB := @c5_refund_time_gate fxS4d 1 symBOT.code 60 ⟨1, 0, 60, ⟨50, symBOT⟩⟩
    reach_fxS4d rfl
  refine ⟨hA.1 (by decide), ?_⟩
  obtain ⟨s', h1, h2, h3⟩ := hB.2 (by decide)
  exact ⟨s', h1, h2, h3 99⟩

/-- C8: for a pending request of amount `r.amount` in a reachable state,
`cancelrefund` deletes only the request row (all balances and every other
table untouched), and a following `unstake` of the same amount at a later
clock reading `t2` succeeds and reproduces the original state except that the
pending row now carries `request_time = t2` and
`refund_time = (t2 + refund_delay) mod 2^64` (recomputed from the later
clock reading by the wrapping `uint64_t` addition of boatwingio.cpp:215) —
same amount, fresh times. -/
theorem c8_cancel_then_unstake {s : St} {o c t2 : Nat} {r : UnstakeRec}
    (hR : Reachable s) (hr : alookup s.unstakes (c, o) = some r) :
    Token.cancelrefund o c s = .ok { s with unstakes := aerase s.unstakes (c, o) } ∧
    ∃ st s2, alookup s.stats c = some st ∧
      Token.unstake o r.amount t2 { s with unstakes := aerase s.unstakes (c, o) } = .ok s2 ∧
      s2.stats = s.stats ∧ s2.accounts = s.accounts ∧ s2.stakes = s.stakes ∧
      s2.totals = s.totals ∧
      alookup s2.unstakes (c, o) = some ⟨o, t2, (t2 + st.refund_delay) % (2 ^ 64), r.amount⟩ ∧
      ∀ k, k ≠ ((c, o) : Nat × Nat) → alookup s2.unstakes k = alookup s.unstakes k := by
  have hI := reachable_inv hR
  obtain ⟨hro, hrpos, a, ha, hrsym, hrle⟩ := hI.reqOk c o r hr
  obtain ⟨⟨st2, hst2, hbs⟩, gsym, gnn, gle, gmax⟩ := hI.acctOk o c a ha
  obtain ⟨hsc, hms, hcv2, hmp, hmb, hcons⟩ := hI.statOk c st2 hst2
  have hqc : r.amount.sym.code = c := by
    rw [hrsym, gsym, hbs, hsc]
  have hmaxnn : (0 : Int) ≤ maxAmt := by
    simp only [maxAmt]
    norm_num
  refine ⟨cancelrefund_ok_iff.mpr ⟨⟨r, hr⟩, rfl⟩, st2,
    { s with unstakes := aset (aerase s.unstakes (c, o)) (r.amount.sym.code, o) ⟨o, t2, (t2 + st2.refund_delay) % (2 ^ 64), r.amount⟩ },
    hst2, ?_, rfl, rfl, rfl, rfl, ?_, ?_⟩
  · apply unstake_ok_iff.mpr
    refine ⟨st2, a, ?_, ?_, ?_, hrpos, hrsym.symm, hrle, ?_, rfl⟩
    · show alookup s.stats r.amount.sym.code = some st2
      rw [hqc]
      exact hst2
    · show alookup s.accounts (o, r.amount.sym.code) = some a
      rw [hqc]
      exact ha
    · simp only [assetValid, Bool.and_eq_true, decide_eq_true_eq]
      refine ⟨⟨by linarith, by linarith⟩, ?_⟩
      rw [hqc]
      exact hsc ▸ hcv2
    · show alookup (aerase s.unstakes (c, o)) (r.amount.sym.code, o) = none
      rw [show ((r.amount.sym.code, o) : Nat × Nat) = (c, o) from by rw [hqc]]
      exact alookup_aerase_self hI.ndU
  · show alookup (aset (aerase s.unstakes (c, o)) (r.amount.sym.code, o) ⟨o, t2, (t2 + st2.refund_delay) % (2 ^ 64), r.amount⟩) (c, o) = _
    rw [show ((r.amount.sym.code, o) : Nat × Nat) = (c, o) from by rw [hqc]]
    exact alookup_aset_self
  · intro k hk
    show alookup (aset (aerase s.unstakes (c, o)) (r.amount.sym.code, o) ⟨o, t2, (t2 + st2.refund_delay) % (2 ^ 64), r.amount⟩) k = _
    rw [show ((r.amount.sym.code, o) : Nat × Nat) = (c, o) from by rw [hqc]]
    rw [alookup_aset_ne hk, alookup_aerase_ne hk]

theorem c8_cancel_then_unstake_witness :
    Token.cancelrefund 1 symBOT.code fxS4d =
      .ok { fxS4d with unstakes := aerase fxS4d.unstakes (symBOT.code, 1) } ∧
    ∃ st s2, alookup fxS4d.stats symBOT.code = some st ∧
      Token.unstake 1 ⟨50, symBOT⟩ 100
        { fxS4d with unstakes := aerase fxS4d.unstakes (symBOT.code, 1) } = .ok s2 ∧
      s2.stats = fxS4d.stats ∧ s2.accounts = fxS4d.accounts ∧
      s2.stakes = fxS4d.stakes ∧ s2.totals = fxS4d.totals ∧
      alookup s2.unstakes (symBOT.code, 1) =
        some ⟨1, 100, (100 + st.refund_delay) % (2 ^ 64), ⟨50, symBOT⟩⟩ ∧
      ∀ k, k ≠ ((symBOT.code, 1) : Nat × Nat) →
        alookup s2.unstakes k = alookup fxS4d.unstakes k :=
  @c8_cancel_then_unstake fxS4d 1 symBOT.code 100 ⟨1, 0, 60, ⟨50, symBOT⟩⟩
    reach_fxS4d rfl
